import Mathlib

/-!
Verification development for the tap-zendesk incremental replication engine
(`tap_zendesk/streams.py`, `tap_zendesk/__init__.py`).

The Python code is shallowly embedded: dictionaries become association
lists, generators become functions returning the list of yielded records,
in-place state mutation becomes explicit state passing, and a raised
exception becomes the `Option.none` / `raised := true` outcome of the
embedded function (the Python exception propagates before any further
mutation, so the embedded result carries the state as it was at the raise
point where that matters).

Timestamp handling: the source delegates parsing to the external
collaborator `singer.utils.strptime_with_tz` (ISO-8601 strings to aware
datetimes, raising on `None` and on unparsable strings) and rendering to
`utils.strftime` / `datetime.utcfromtimestamp`.  Instants are modelled as
natural numbers and the external parser as decimal-numeral parsing: falsy
values and non-numeric strings fail to parse (the raise case), and distinct
numerals can denote the same instant (leading zeros), mirroring the
partial, non-injective, order-reflecting nature of the real parser.
-/

namespace TapZendesk

/-- A Python value as it occurs in bookmark state and record fields:
`None`, a string, or an integer. -/
inductive Val where
  | none : Val
  | str (s : String) : Val
  | int (n : Nat) : Val
deriving DecidableEq

/-- Python truthiness for the values of `Val`: `None` and the empty string
and the integer 0 are falsy, everything else is truthy. -/
def truthy : Val → Bool
  | Val.none => false
  | Val.str s => !s.data.isEmpty
  | Val.int n => n != 0

/-- The numeric value of a decimal digit character. -/
def charDigit (c : Char) : Nat := c.toNat - 48

/-- Decimal-numeral parsing of a timestamp string (model of the external
ISO-8601 parser): a nonempty all-digit string denotes an instant, anything
else fails to parse. -/
def parseTS (s : String) : Option Nat :=
  if (!s.data.isEmpty) && s.data.all Char.isDigit then
    Option.some (Nat.ofDigits 10 ((s.data.map charDigit).reverse))
  else
    Option.none

/-- Little-endian decimal digits of `n`, computed with structural fuel so
that the kernel can evaluate it. -/
def natDigitsRev : Nat → Nat → List Nat
  | 0, _ => []
  | fuel + 1, n => if n = 0 then [] else (n % 10) :: natDigitsRev fuel (n / 10)

/-- Decimal rendering of an instant (model of `utils.strftime` composed
with `datetime.utcfromtimestamp`, and also of Python `str` on an integer
ticket id). -/
def natRepr (n : Nat) : String :=
  if n = 0 then "0"
  else String.mk ((natDigitsRev n n).reverse.map (fun d => Char.ofNat (48 + d)))

theorem natDigitsRev_eq_digits : ∀ (fuel n : Nat), n ≤ fuel →
    natDigitsRev fuel n = Nat.digits 10 n := by
  intro fuel
  induction fuel with
  | zero =>
    intro n hn
    have h0 : n = 0 := Nat.le_zero.mp hn
    subst h0
    rw [Nat.digits_zero]
    rfl
  | succ f ih =>
    intro n hn
    by_cases h0 : n = 0
    · subst h0
      rw [Nat.digits_zero]
      rfl
    · have hdiv : n / 10 ≤ f := by
        have hlt : n / 10 < n := Nat.div_lt_self (Nat.pos_of_ne_zero h0) (by norm_num)
        omega
      have hd := Nat.digits_def' (show (1 : Nat) < 10 by norm_num) (Nat.pos_of_ne_zero h0)
      rw [natDigitsRev, if_neg h0, ih (n / 10) hdiv, ← hd]

/-- Model of `singer.utils.strptime_with_tz`: parses a string value to an
instant; `Option.none` is the raise case (`None`, a non-string, or an
unparsable string). -/
def strptime : Val → Option Nat
  | Val.none => Option.none
  | Val.str s => parseTS s
  | Val.int _ => Option.none

/-- Result of a call to `Stream.update_bookmark`: the state after the call
and whether the call raised.  A raise happens before the write, so the
state field then holds the unchanged input state. -/
structure UBResult where
  state : Val
  raised : Bool
deriving DecidableEq

/-- Model of `Stream.update_bookmark` (streams.py lines 86-89) operating on
the single bookmark slot of one stream.  `get_bookmark` parses the stored
value first (raising if it does not parse); then
`if value and utils.strptime_with_tz(value) > current_bookmark` guards the
write of the raw candidate value. -/
def update_bookmark (state value : Val) : UBResult :=
  match strptime state with
  | Option.none => { state := state, raised := true }
  | Option.some cur =>
    if truthy value then
      match strptime value with
      | Option.none => { state := state, raised := true }
      | Option.some v =>
        if cur < v then { state := value, raised := false }
        else { state := state, raised := false }
    else { state := state, raised := false }

/-! Basic facts about truthiness and parsing. -/

theorem truthy_of_strptime_isSome {v : Val} (h : (strptime v).isSome = true) :
    truthy v = true := by
  cases v with
  | none => simp [strptime] at h
  | int n => simp [strptime] at h
  | str s =>
    simp only [strptime, parseTS] at h
    split at h
    · rename_i hc
      simp only [Bool.and_eq_true, Bool.not_eq_true'] at hc
      simp [truthy, hc.1]
    · simp at h

theorem strptime_eq_none_of_not_truthy {v : Val} (h : truthy v = false) :
    strptime v = Option.none := by
  cases v with
  | none => rfl
  | int n => rfl
  | str s =>
    simp only [truthy, Bool.not_eq_true'] at h
    simp [strptime, parseTS, h]

/-- The decimal rendering of an instant parses back to that instant. -/
theorem strptime_natRepr (n : Nat) : strptime (Val.str (natRepr n)) = Option.some n := by
  by_cases h0 : n = 0
  · subst h0; decide
  · have hdigs : Nat.digits 10 n ≠ [] := Nat.digits_ne_nil_iff_ne_zero.mpr h0
    have hlt : ∀ d ∈ Nat.digits 10 n, d < 10 := fun d hd =>
      Nat.digits_lt_base (by norm_num) hd
    have hchar : ∀ d, d < 10 →
        (Char.isDigit (Char.ofNat (48 + d)) = true ∧ charDigit (Char.ofNat (48 + d)) = d) := by
      intro d hd
      interval_cases d <;> exact ⟨by decide, by decide⟩
    have hofd : Nat.ofDigits 10 (Nat.digits 10 n) = n := Nat.ofDigits_digits 10 n
    simp only [strptime, natRepr, h0, if_false, parseTS]
    rw [natDigitsRev_eq_digits n n (Nat.le_refl n)]
    have hrev : Nat.digits 10 n = (Nat.digits 10 n).reverse.reverse :=
      (List.reverse_reverse _).symm
    generalize hL : (Nat.digits 10 n).reverse = L
    rw [hL] at hrev
    have hLlt : ∀ d ∈ L, d < 10 := by
      intro d hd
      apply hlt
      rw [hrev, List.mem_reverse]
      exact hd
    cases L with
    | nil => rw [hrev] at hdigs; simp at hdigs
    | cons c cs =>
      have hcond : ((!(((c :: cs).map (fun d => Char.ofNat (48 + d))).isEmpty)) &&
          (((c :: cs).map (fun d => Char.ofNat (48 + d))).all Char.isDigit)) = true := by
        simp only [List.map_cons, List.isEmpty_cons, Bool.not_false, Bool.true_and,
          List.all_cons, List.all_eq_true, List.mem_map, Bool.and_eq_true]
        constructor
        · exact (hchar c (hLlt c (List.mem_cons_self c cs))).1
        · rintro x ⟨d, hd, rfl⟩
          exact (hchar d (hLlt d (List.mem_cons_of_mem c hd))).1
      rw [if_pos hcond]
      congr 1
      have hmap : (((c :: cs).map (fun d => Char.ofNat (48 + d))).map charDigit) = c :: cs := by
        rw [List.map_map]
        have hpt : ∀ d ∈ c :: cs, (charDigit ∘ fun d => Char.ofNat (48 + d)) d = id d := by
          intro d hd
          simp only [Function.comp_apply, id_eq]
          exact (hchar d (hLlt d hd)).2
        rw [List.map_congr_left hpt, List.map_id]
      rw [hmap, ← hrev, hofd]

/-! Step lemmas for `update_bookmark`. -/

theorem update_bookmark_parse {state value : Val} {s v : Nat}
    (hs : strptime state = Option.some s) (hv : strptime value = Option.some v) :
    update_bookmark state value =
      { state := if s < v then value else state, raised := false } := by
  have ht : truthy value = true := truthy_of_strptime_isSome (by rw [hv]; rfl)
  rw [update_bookmark, hs, ht, hv]
  simp only [if_true]
  by_cases h : s < v <;> simp [h]

theorem update_bookmark_falsy {state value : Val} {s : Nat}
    (hs : strptime state = Option.some s) (ht : truthy value = false) :
    update_bookmark state value = { state := state, raised := false } := by
  rw [update_bookmark, hs, ht]
  simp

theorem update_bookmark_unparsable {state value : Val} {s : Nat}
    (hs : strptime state = Option.some s) (ht : truthy value = true)
    (hv : strptime value = Option.none) :
    update_bookmark state value = { state := state, raised := true } := by
  rw [update_bookmark, hs, ht, hv]
  simp

theorem update_bookmark_state_parse {state value : Val} {s v : Nat}
    (hs : strptime state = Option.some s) (hv : strptime value = Option.some v) :
    strptime (update_bookmark state value).state = Option.some (max s v) := by
  rw [update_bookmark_parse hs hv]
  by_cases h : s < v
  · simp only [h, if_true]
    rw [hv]
    congr 1
    omega
  · simp only [h, if_false]
    rw [hs]
    congr 1
    omega

/-- C1 counterexample.  The claim states that an unparsable candidate is a
no-op: the call returns normally with the state unchanged.  At the stored
bookmark `"0"` and the truthy unparsable candidate `"x"`, the code instead
raises (the `ValueError` from `utils.strptime_with_tz`), modelled by
`raised := true`; so the call is not a no-op. -/
theorem update_bookmark_unparsable_not_noop :
    update_bookmark (Val.str "0") (Val.str "x") ≠
      { state := Val.str "0", raised := false } ∧
    (update_bookmark (Val.str "0") (Val.str "x")).raised = true ∧
    (update_bookmark (Val.str "0") (Val.str "x")).state = Val.str "0" := by
  refine ⟨?_, ?_, ?_⟩ <;> decide

/-- C1 (amended).  Assuming the stored bookmark parses (the precondition of
`get_bookmark`): the candidate is written iff it parses as a valid
timestamp strictly greater than the current bookmark; a candidate that
parses to a value not above the current bookmark, and a falsy candidate,
are no-ops; a truthy unparsable candidate raises, leaving the state
unchanged (so the state is never regressed, but the unparsable case is a
propagated exception rather than a silent no-op). -/
theorem update_bookmark_cases (state value : Val) (s : Nat)
    (hs : strptime state = Option.some s) :
    (∀ v, strptime value = Option.some v → s < v →
      update_bookmark state value = { state := value, raised := false }) ∧
    (∀ v, strptime value = Option.some v → v ≤ s →
      update_bookmark state value = { state := state, raised := false }) ∧
    (truthy value = false →
      update_bookmark state value = { state := state, raised := false }) ∧
    (truthy value = true → strptime value = Option.none →
      update_bookmark state value = { state := state, raised := true }) := by
  refine ⟨?_, ?_, ?_, ?_⟩
  · intro v hv hlt
    rw [update_bookmark_parse hs hv]
    simp [hlt]
  · intro v hv hle
    rw [update_bookmark_parse hs hv]
    simp [Nat.not_lt.mpr hle]
  · intro ht
    exact update_bookmark_falsy hs ht
  · intro ht hv
    exact update_bookmark_unparsable hs ht hv

/-- C1 witness: instantiating the amended characterization at the stored
bookmark `"3"` with the candidate `"7"`, which parses and is greater, so it
is written. -/
theorem update_bookmark_cases_witness :
    strptime (Val.str "3") = Option.some 3 ∧
    update_bookmark (Val.str "3") (Val.str "7") =
      { state := Val.str "7", raised := false } :=
  ⟨by decide,
   (update_bookmark_cases (Val.str "3") (Val.str "7") 3 (by decide)).1 7 (by decide) (by decide)⟩

/-! Feeding a sequence of records to the bookmark-advance primitive
(claim C2).  `feedAll` folds `update_bookmark` over the candidate values
in order; a raise aborts the fold, as the Python exception would abort the
run. -/

/-- Feed a list of candidate values to `Stream.update_bookmark`, stopping
at the first raise. -/
def feedAll : Val → List Val → UBResult
  | state, [] => { state := state, raised := false }
  | state, v :: vs =>
    let r := update_bookmark state v
    if r.raised then r else feedAll r.state vs

/-- Following the words of the spec and of claim C2: the maximum valid
timestamp among the fed values (none when no fed value parses). -/
def maxValidTimestamp (values : List Val) : Option Nat :=
  (values.filterMap strptime).foldl
    (fun acc v =>
      match acc with
      | Option.none => Option.some v
      | Option.some a => Option.some (max a v))
    Option.none

/-! Arithmetic facts about folded maxima. -/

theorem le_foldl_max (l : List Nat) : ∀ a b : Nat, a ≤ b → a ≤ l.foldl max b := by
  induction l with
  | nil => intro a b h; exact h
  | cons x xs ih =>
    intro a b h
    simp only [List.foldl_cons]
    exact ih a (max b x) (Nat.le_trans h (Nat.le_max_left b x))

theorem mem_le_foldl_max {u : Nat} {l : List Nat} (hu : u ∈ l) :
    ∀ a : Nat, u ≤ l.foldl max a := by
  induction l with
  | nil => cases hu
  | cons x xs ih =>
    intro a
    simp only [List.foldl_cons]
    rcases List.mem_cons.mp hu with h | h
    · subst h
      exact le_foldl_max xs u (max a u) (Nat.le_max_right a u)
    · exact ih h (max a x)

theorem foldl_max_perm {l₁ l₂ : List Nat} (p : l₁.Perm l₂) :
    ∀ a : Nat, l₁.foldl max a = l₂.foldl max a := by
  induction p with
  | nil => intro a; rfl
  | cons x _ ih =>
    intro a
    simp only [List.foldl_cons]
    exact ih (max a x)
  | swap x y l =>
    intro a
    simp only [List.foldl_cons]
    rw [Nat.max_assoc, Nat.max_comm y x, ← Nat.max_assoc]
  | trans _ _ ih₁ ih₂ =>
    intro a
    rw [ih₁ a, ih₂ a]

/-- The parsed bookmark after feeding a list of parseable-or-falsy values
is the max-fold of the parsed values over the initial parsed bookmark, and
no raise occurs. -/
theorem feedAll_spec (l : List Val) : ∀ (state : Val) (s : Nat),
    strptime state = Option.some s →
    (∀ v ∈ l, truthy v = true → (strptime v).isSome = true) →
    (feedAll state l).raised = false ∧
    strptime (feedAll state l).state =
      Option.some ((l.filterMap strptime).foldl max s) := by
  induction l with
  | nil =>
    intro state s hs _
    exact ⟨rfl, by simpa [feedAll] using hs⟩
  | cons v vs ih =>
    intro state s hs hl
    by_cases ht : truthy v = true
    · have hsome : (strptime v).isSome = true := hl v (List.mem_cons_self v vs) ht
      rcases Option.isSome_iff_exists.mp hsome with ⟨u, hu⟩
      have hstate := update_bookmark_state_parse hs hu
      have hr : (update_bookmark state v).raised = false := by
        rw [update_bookmark_parse hs hu]
      have hrest := ih (update_bookmark state v).state (max s u) hstate
        (fun w hw htw => hl w (List.mem_cons_of_mem v hw) htw)
      have hfeed : feedAll state (v :: vs) = feedAll (update_bookmark state v).state vs := by
        simp [feedAll, hr]
      refine ⟨by rw [hfeed]; exact hrest.1, ?_⟩
      rw [hfeed, hrest.2]
      congr 1
      simp [List.filterMap_cons, hu]
    · have ht' : truthy v = false := Bool.not_eq_true (truthy v) ▸ ht
      have hnone : strptime v = Option.none := strptime_eq_none_of_not_truthy ht'
      have hstep := update_bookmark_falsy hs ht'
      have hrest := ih state s hs (fun w hw htw => hl w (List.mem_cons_of_mem v hw) htw)
      have hfeed : feedAll state (v :: vs) = feedAll state vs := by
        rw [feedAll]
        rw [hstep]
        simp
      refine ⟨by rw [hfeed]; exact hrest.1, ?_⟩
      rw [hfeed, hrest.2]
      congr 1
      simp [List.filterMap_cons, hnone]

/-- C2 counterexample.  Starting from the start-date bookmark `"10"` and
feeding the single valid value `"5"` (below the start date), the resulting
stored bookmark parses to 10, while the maximum valid timestamp among the
fed values is 5: the claimed equality fails whenever all fed values lie
below the start date. -/
theorem feedAll_below_start_not_max :
    strptime (feedAll (Val.str "10") [Val.str "5"]).state = Option.some 10 ∧
    maxValidTimestamp [Val.str "5"] = Option.some 5 ∧
    strptime (feedAll (Val.str "10") [Val.str "5"]).state ≠
      maxValidTimestamp [Val.str "5"] := by
  refine ⟨?_, ?_, ?_⟩ <;> decide

/-- C2 (amended).  Starting from a state whose bookmark is the configured
start date, feeding any finite sequence of records (each parseable or
falsy, so that the fold does not raise) leaves a stored bookmark that
parses to the maximum of the start date and the valid timestamps among the
fed values — hence equals the maximum valid fed timestamp whenever any fed
value reaches the start date — is never less than the start date, and is
independent of the order in which the values are fed. -/
theorem feedAll_monotone_max (start : Val) (s : Nat) (l : List Val)
    (hs : strptime start = Option.some s)
    (hl : ∀ v ∈ l, truthy v = true → (strptime v).isSome = true) :
    (feedAll start l).raised = false ∧
    strptime (feedAll start l).state =
      Option.some ((l.filterMap strptime).foldl max s) ∧
    s ≤ (l.filterMap strptime).foldl max s ∧
    (∀ l', l.Perm l' →
      strptime (feedAll start l').state = strptime (feedAll start l).state) := by
  obtain ⟨hraise, hmain⟩ := feedAll_spec l start s hs hl
  refine ⟨hraise, hmain, le_foldl_max _ s s (Nat.le_refl s), ?_⟩
  intro l' hperm
  have hl' : ∀ v ∈ l', truthy v = true → (strptime v).isSome = true :=
    fun v hv => hl v (hperm.mem_iff.mpr hv)
  obtain ⟨_, hmain'⟩ := feedAll_spec l' start s hs hl'
  rw [hmain, hmain']
  congr 1
  exact foldl_max_perm (hperm.filterMap strptime).symm s

/-- C2 witness: feeding `["7", "", "3"]` from start date `"5"` ends at the
bookmark parsing to `max 5 (max 7 3) = 7`, which is at least the start
date, and any permutation gives the same parsed bookmark. -/
theorem feedAll_monotone_max_witness :
    strptime (Val.str "5") = Option.some 5 ∧
    strptime (feedAll (Val.str "5") [Val.str "7", Val.str "", Val.str "3"]).state =
      Option.some 7 := by
  refine ⟨by decide, ?_⟩
  have h := feedAll_monotone_max (Val.str "5") 5
    [Val.str "7", Val.str "", Val.str "3"] (by decide) (by decide)
  rw [h.2.1]
  decide

/-! The `Groups` stream (streams.py lines 505-515), representative of the
order-untrusted single-bookmark streams: capture the parsed bookmark once
at stream start, then per record test `updated_at >= bookmark`, advance
the live bookmark and yield. -/

/-- A record of the groups endpoint; only the replication key matters
here. -/
structure GroupRec where
  updated_at : Val
deriving DecidableEq

/-- The inclusion test of `Groups.sync`: the record's parsed `updated_at`
is at least the bookmark captured at stream start. -/
def parsesGE (b : Nat) (g : GroupRec) : Bool :=
  match strptime g.updated_at with
  | Option.some u => decide (b ≤ u)
  | Option.none => false

/-- The per-record loop of `Groups.sync`: `b` is the bookmark parsed at
stream start, the `Val` argument is the live bookmark slot.  `Option.none`
is the raise case (unparsable `updated_at`, or a raise inside
`update_bookmark`). -/
def Groups.syncGo (b : Nat) : Val → List GroupRec → Option (List GroupRec × Val)
  | state, [] => Option.some ([], state)
  | state, g :: gs =>
    match strptime g.updated_at with
    | Option.none => Option.none
    | Option.some u =>
      if b ≤ u then
        let r := update_bookmark state g.updated_at
        if r.raised then Option.none
        else
          match Groups.syncGo b r.state gs with
          | Option.none => Option.none
          | Option.some (ys, st) => Option.some (g :: ys, st)
      else Groups.syncGo b state gs

/-- Model of `Groups.sync`: returns the yielded records and the final
bookmark slot, or `Option.none` if the run raised. -/
def Groups.sync (state : Val) (groups : List GroupRec) : Option (List GroupRec × Val) :=
  match strptime state with
  | Option.none => Option.none
  | Option.some b => Groups.syncGo b state groups

theorem Groups.syncGo_spec : ∀ (gs : List GroupRec) (state : Val) (s b : Nat),
    strptime state = Option.some s → b ≤ s →
    (∀ g ∈ gs, (strptime g.updated_at).isSome = true) →
    ∃ st', Groups.syncGo b state gs = Option.some (gs.filter (parsesGE b), st') ∧
      strptime st' =
        Option.some ((gs.filterMap (fun g => strptime g.updated_at)).foldl max s) := by
  intro gs
  induction gs with
  | nil =>
    intro state s b hs _ _
    exact ⟨state, rfl, by simpa using hs⟩
  | cons g gs ih =>
    intro state s b hs hbs hgs
    have hsome : (strptime g.updated_at).isSome = true :=
      hgs g (List.mem_cons_self g gs)
    rcases Option.isSome_iff_exists.mp hsome with ⟨u, hu⟩
    have hrest : ∀ g' ∈ gs, (strptime g'.updated_at).isSome = true :=
      fun g' hg' => hgs g' (List.mem_cons_of_mem g hg')
    by_cases hbu : b ≤ u
    · have hstate := update_bookmark_state_parse hs hu
      have hr : (update_bookmark state g.updated_at).raised = false := by
        rw [update_bookmark_parse hs hu]
      have hbs' : b ≤ max s u := Nat.le_trans hbs (Nat.le_max_left s u)
      obtain ⟨st', hgo, hst⟩ :=
        ih (update_bookmark state g.updated_at).state (max s u) b hstate hbs' hrest
      refine ⟨st', ?_, ?_⟩
      · rw [Groups.syncGo, hu]
        simp only [hbu, if_true, hr, Bool.false_eq_true, if_false, hgo]
        congr 1
        have hpg : parsesGE b g = true := by
          simp [parsesGE, hu, hbu]
        simp [List.filter_cons, hpg]
      · rw [hst]
        congr 1
        simp [List.filterMap_cons, hu]
    · have hpg : parsesGE b g = false := by
        simp [parsesGE, hu, hbu]
      obtain ⟨st', hgo, hst⟩ := ih state s b hs hbs hrest
      refine ⟨st', ?_, ?_⟩
      · rw [Groups.syncGo, hu]
        simp only [hbu, if_false, hgo]
        congr 1
        simp [List.filter_cons, hpg]
      · rw [hst]
        congr 1
        have hus : u < b := Nat.not_le.mp hbu
        have hmax : max s u = s := Nat.max_eq_left (by omega)
        simp [List.filterMap_cons, hu, hmax]

/-- C5 counterexample.  With start bookmark `"0"` and the single record
`updated_at = "5"`: the first run yields the record and leaves bookmark
`"5"`; replaying the identical records from that bookmark yields the
record again (the inclusive `>=` test re-includes the boundary record), so
the second run does not yield zero records. -/
theorem groups_second_run_not_empty :
    Groups.sync (Val.str "0") [GroupRec.mk (Val.str "5")] =
      Option.some ([GroupRec.mk (Val.str "5")], Val.str "5") ∧
    Groups.sync (Val.str "5") [GroupRec.mk (Val.str "5")] =
      Option.some ([GroupRec.mk (Val.str "5")], Val.str "5") ∧
    ([GroupRec.mk (Val.str "5")] : List GroupRec) ≠ [] := by
  refine ⟨?_, ?_, ?_⟩ <;> decide

/-- C5 (amended).  For a single-bookmark order-untrusted stream, replaying
an identical set of records from the bookmark `B` produced by a prior
complete run yields exactly the boundary records — those whose
`updated_at` parses to `B` — and hence yields zero records iff no record
shares its timestamp with that bookmark (the deliberate at-least-once
boundary trade-off). -/
theorem Groups.sync_replay (st : Val) (s : Nat) (gs : List GroupRec)
    (hs : strptime st = Option.some s)
    (hgs : ∀ g ∈ gs, (strptime g.updated_at).isSome = true) :
    ∃ ys₁ st₁ B st₂,
      Groups.sync st gs = Option.some (ys₁, st₁) ∧
      strptime st₁ = Option.some B ∧
      Groups.sync st₁ gs =
        Option.some (gs.filter (fun g => strptime g.updated_at == Option.some B), st₂) ∧
      (gs.filter (fun g => strptime g.updated_at == Option.some B) = [] ↔
        ∀ g ∈ gs, strptime g.updated_at ≠ Option.some B) := by
  obtain ⟨st₁, hgo₁, hst₁⟩ := Groups.syncGo_spec gs st s s hs (Nat.le_refl s) hgs
  set B := (gs.filterMap (fun g => strptime g.updated_at)).foldl max s with hB
  obtain ⟨st₂, hgo₂, _⟩ := Groups.syncGo_spec gs st₁ B B hst₁ (Nat.le_refl B) hgs
  have hbound : ∀ g ∈ gs, ∀ u, strptime g.updated_at = Option.some u → u ≤ B := by
    intro g hg u hu
    have hmem : u ∈ gs.filterMap (fun g => strptime g.updated_at) :=
      List.mem_filterMap.mpr ⟨g, hg, hu⟩
    exact mem_le_foldl_max hmem s
  have hfilter : gs.filter (parsesGE B) =
      gs.filter (fun g => strptime g.updated_at == Option.some B) := by
    apply List.filter_congr
    intro g hg
    rcases Option.isSome_iff_exists.mp (hgs g hg) with ⟨u, hu⟩
    have hub : u ≤ B := hbound g hg u hu
    by_cases heq : u = B
    · subst heq
      simp [parsesGE, hu]
    · have : ¬ B ≤ u := by omega
      simp [parsesGE, hu, this, heq]
  refine ⟨gs.filter (parsesGE s), st₁, B, st₂, ?_, hst₁, ?_, ?_⟩
  · rw [Groups.sync, hs]
    exact hgo₁
  · rw [Groups.sync, hst₁]
    rw [← hfilter]
    exact hgo₂
  · rw [List.filter_eq_nil_iff]
    constructor
    · intro h g hg hcon
      exact absurd (by simp [hcon]) (h g hg)
    · intro h g hg
      simp only [beq_iff_eq]
      exact fun hcon => h g hg (by simpa using hcon)

/-- C5 witness: records `["3", "7"]` from start `"0"`; the first run ends
at bookmark parsing to 7, and the replay yields exactly the boundary
record `"7"`. -/
theorem Groups.sync_replay_witness :
    strptime (Val.str "0") = Option.some 0 ∧
    ∃ ys₁ st₁ B st₂,
      Groups.sync (Val.str "0") [GroupRec.mk (Val.str "3"), GroupRec.mk (Val.str "7")] =
        Option.some (ys₁, st₁) ∧
      strptime st₁ = Option.some B ∧
      Groups.sync st₁ [GroupRec.mk (Val.str "3"), GroupRec.mk (Val.str "7")] =
        Option.some ([GroupRec.mk (Val.str "3"), GroupRec.mk (Val.str "7")].filter
          (fun g => strptime g.updated_at == Option.some B), st₂) ∧
      ([GroupRec.mk (Val.str "3"), GroupRec.mk (Val.str "7")].filter
          (fun g => strptime g.updated_at == Option.some B) = [] ↔
        ∀ g ∈ [GroupRec.mk (Val.str "3"), GroupRec.mk (Val.str "7")],
          strptime g.updated_at ≠ Option.some B) :=
  ⟨by decide,
   Groups.sync_replay (Val.str "0") 0
     [GroupRec.mk (Val.str "3"), GroupRec.mk (Val.str "7")] (by decide) (by decide)⟩

/-! The `TicketComments` child stream (streams.py lines 414-466).
Python dict keys can be the integer ticket id (used by the live per-comment
update) or its string rendering (used by the seed write and the threshold
read), so keys are modelled as a sum. -/

/-- A Python dict key as used in the per-ticket comment bookmark map: the
integer ticket id, or a string. -/
inductive PyKey where
  | int (n : Nat) : PyKey
  | str (s : String) : PyKey
deriving DecidableEq

/-- The per-ticket comment bookmark map: an insertion-ordered Python dict
from keys to values. -/
abbrev TCMap := List (PyKey × Val)

/-- Python `str` on an integer ticket id. -/
def pyStr (n : Nat) : String := natRepr n

/-- Python `dict.get`. -/
def dictGet (m : TCMap) (k : PyKey) : Option Val :=
  match m with
  | [] => Option.none
  | (k', v) :: rest => if k' = k then Option.some v else dictGet rest k

/-- Python `dict[k] = v`: replace in place, or append a new binding. -/
def dictSet (m : TCMap) (k : PyKey) (v : Val) : TCMap :=
  match m with
  | [] => [(k, v)]
  | (k', v') :: rest => if k' = k then (k, v) :: rest else (k', v') :: dictSet rest k v

theorem dictGet_dictSet_self (m : TCMap) (k : PyKey) (v : Val) :
    dictGet (dictSet m k v) k = Option.some v := by
  induction m with
  | nil => simp [dictGet, dictSet]
  | cons p rest ih =>
    obtain ⟨k', v'⟩ := p
    by_cases h : k' = k
    · simp [dictGet, dictSet, h]
    · simp [dictGet, dictSet, h, ih]

theorem dictGet_dictSet_ne (m : TCMap) (k k' : PyKey) (v : Val) (h : k ≠ k') :
    dictGet (dictSet m k v) k' = dictGet m k' := by
  induction m with
  | nil => simp [dictGet, dictSet, h]
  | cons p rest ih =>
    obtain ⟨k₀, v₀⟩ := p
    by_cases h0 : k₀ = k
    · subst h0
      simp [dictGet, dictSet, h]
    · simp [dictGet, dictSet, h0, ih]

/-- Python truthiness of the result of a `dict.get`: missing keys give
`None`, which is falsy. -/
def pyTruthyOpt : Option Val → Bool
  | Option.none => false
  | Option.some v => truthy v

/-- A comment record; only `created_at` matters to the decisions. -/
structure Comment where
  created_at : Val
deriving DecidableEq

/-- The tap configuration; only `start_date` matters here. -/
structure Config where
  start_date : Val
deriving DecidableEq

/-- The parts of the singer state read and written by
`TicketComments.sync`: the entry `state['bookmarks']['tickets']`
(outer `Option`: key present at all; inner: its
`'generated_timestamp'` value) and the entry
`state['bookmarks']['ticket_comments']['created_at']`
(`Option.none` when absent or `None`). -/
structure CommentsState where
  tickets : Option (Option Val)
  tcEntry : Option TCMap
deriving DecidableEq

/-- The mutable cursor of the comments stream: the live state and the
instance attribute `starting_state` (`Option.none` until the first comment
of the run is processed; `starting_bookmark` is its `tcEntry`). -/
structure SyncSt where
  state : CommentsState
  inst : Option CommentsState
deriving DecidableEq

/-- The first-invocation block of `TicketComments.sync` (lines 437-444):
`ensure_bookmark_path`, the seed guard
`not tc_bookmark and len(tc_bookmark) == 0`, the seed write
`{ str(ticket_id): state['bookmarks']['tickets']['generated_timestamp'] }`
(raising `KeyError` if the tickets bookmark is missing), returning the
state of which the deep copy is taken. -/
def tcFirstBlock (tid : Nat) (st : CommentsState) : Option CommentsState :=
  let m0 := st.tcEntry.getD []
  if m0.isEmpty && (m0.length == 0) then
    match st.tickets with
    | Option.none => Option.none
    | Option.some gts =>
      match gts with
      | Option.none => Option.none
      | Option.some g =>
        Option.some { st with tcEntry := Option.some [(PyKey.str (pyStr tid), g)] }
  else Option.some { st with tcEntry := Option.some m0 }

/-- The live per-comment bookmark update (lines 448-455): an absent or
falsy entry at the integer ticket id is overwritten unconditionally;
otherwise the stored value is parsed (raising if unparsable) and
overwritten only by a strictly greater parsed `created_at`. -/
def tcLiveUpdate (tid : Nat) (m : TCMap) (created_at : Val) : Option TCMap :=
  match dictGet m (PyKey.int tid) with
  | Option.none => Option.some (dictSet m (PyKey.int tid) created_at)
  | Option.some cur =>
    if truthy cur then
      match strptime cur with
      | Option.none => Option.none
      | Option.some curts =>
        if truthy created_at then
          match strptime created_at with
          | Option.none => Option.none
          | Option.some ca =>
            if curts < ca then Option.some (dictSet m (PyKey.int tid) created_at)
            else Option.some m
        else Option.some m
    else Option.some (dictSet m (PyKey.int tid) created_at)

/-- The threshold resolution of `TicketComments.sync` (lines 457-462),
evaluated against the frozen snapshot: (a) the per-ticket entry at the
string key, if truthy; else (b) the ticket-stream bookmark recorded in the
snapshot, if truthy (raising if the `tickets` key is absent); else (c) the
configured start date.  `Option.none` is the raise case. -/
def tcThreshold (cfg : Config) (tid : Nat) (snap : CommentsState) : Option Nat :=
  match snap.tcEntry with
  | Option.none => Option.none
  | Option.some m =>
    if pyTruthyOpt (dictGet m (PyKey.str (pyStr tid))) then
      match dictGet m (PyKey.str (pyStr tid)) with
      | Option.some v => strptime v
      | Option.none => Option.none
    else
      match snap.tickets with
      | Option.none => Option.none
      | Option.some gts =>
        if pyTruthyOpt gts then
          match gts with
          | Option.some v => strptime v
          | Option.none => Option.none
        else strptime cfg.start_date

/-- Run the first-invocation block if `starting_state` is unset, returning
the live state and the snapshot. -/
def tcInit (tid : Nat) (s : SyncSt) : Option (CommentsState × CommentsState) :=
  match s.inst with
  | Option.some snap => Option.some (s.state, snap)
  | Option.none =>
    match tcFirstBlock tid s.state with
    | Option.none => Option.none
    | Option.some st => Option.some (st, st)

/-- One iteration of the loop body of `TicketComments.sync` for a single
comment: first-invocation block, live per-ticket update, threshold
resolution against the snapshot, and the strict `>` inclusion test.
Returns the new cursor and whether the comment was yielded; `Option.none`
is the raise case. -/
def TicketComments.syncStep (cfg : Config) (tid : Nat) (s : SyncSt) (c : Comment) :
    Option (SyncSt × Bool) :=
  match tcInit tid s with
  | Option.none => Option.none
  | Option.some (live, snap) =>
    match live.tcEntry with
    | Option.none => Option.none
    | Option.some m =>
      match tcLiveUpdate tid m c.created_at with
      | Option.none => Option.none
      | Option.some m2 =>
        match tcThreshold cfg tid snap with
        | Option.none => Option.none
        | Option.some thr =>
          match strptime c.created_at with
          | Option.none => Option.none
          | Option.some ca =>
            Option.some ({ state := { live with tcEntry := Option.some m2 },
                           inst := Option.some snap }, decide (thr < ca))

/-- Model of one call `TicketComments.sync(ticket_id, state)`: iterate the
step over the fetched comments, collecting the yielded ones. -/
def TicketComments.sync (cfg : Config) (tid : Nat) :
    SyncSt → List Comment → Option (SyncSt × List Comment)
  | s, [] => Option.some (s, [])
  | s, c :: cs =>
    match TicketComments.syncStep cfg tid s c with
    | Option.none => Option.none
    | Option.some (s', y) =>
      match TicketComments.sync cfg tid s' cs with
      | Option.none => Option.none
      | Option.some (s'', ys) => Option.some (s'', if y then c :: ys else ys)

/-- An arbitrary interleaving of comment processing across calls for
different tickets within one run (the parent iterates tickets and invokes
the comments stream per ticket). -/
def tcSteps (cfg : Config) : SyncSt → List (Nat × Comment) → Option SyncSt
  | s, [] => Option.some s
  | s, p :: ps =>
    match TicketComments.syncStep cfg p.1 s p.2 with
    | Option.none => Option.none
    | Option.some (s', _) => tcSteps cfg s' ps

/-! Claim C9: the seed guard in isolation, with Python evaluation order
made explicit. -/

/-- The value of `state['bookmarks']['ticket_comments'].get('created_at')`
as scrutinised by the seed guard: `None` or a mapping. -/
inductive TCEntryVal where
  | null : TCEntryVal
  | map (m : TCMap) : TCEntryVal

/-- Python `not tc_bookmark` on that value. -/
def pyNotEntry : TCEntryVal → Bool
  | TCEntryVal.null => true
  | TCEntryVal.map m => m.isEmpty

/-- Python `len(tc_bookmark) == 0` on that value; `len(None)` raises
`TypeError`, the `Option.none` case. -/
def pyLenEqZero : TCEntryVal → Option Bool
  | TCEntryVal.null => Option.none
  | TCEntryVal.map m => Option.some (m.length == 0)

/-- The guard `not tc_bookmark and len(tc_bookmark) == 0` with Python
short-circuit evaluation; `Option.none` is the raise case. -/
def seedGuard (v : TCEntryVal) : Option Bool :=
  if pyNotEntry v then pyLenEqZero v else Option.some false

/-- `singer.bookmarks.ensure_bookmark_path` on the
`['bookmarks', 'ticket_comments', 'created_at']` path: an absent or `None`
entry becomes the empty dict, any other value is left alone. -/
def ensure_bookmark_entry (e : Option TCMap) : TCMap := e.getD []

/-- C9 (confirmed).  For every possible value of the `ticket_comments`
bookmark entry — absent/`None` or a mapping — the seed guard is evaluated
on the entry after `ensure_bookmark_path`, which is always a mapping, so
the short-circuit conjunction never reaches `len(None)`: evaluation never
raises, and the guard selects seeding exactly when the ensured mapping has
no per-ticket entry. -/
theorem seedGuard_total (e : Option TCMap) :
    seedGuard (TCEntryVal.map (ensure_bookmark_entry e)) =
      Option.some (ensure_bookmark_entry e).isEmpty ∧
    ((ensure_bookmark_entry e).isEmpty = true ↔ ensure_bookmark_entry e = []) := by
  cases hm : ensure_bookmark_entry e with
  | nil => exact ⟨rfl, by simp⟩
  | cons p rest => exact ⟨rfl, by simp⟩

/-- The inclusion decision of `TicketComments.sync` as a pure function of
the frozen snapshot, the ticket id, the configuration, and the comment
(meaningful when the step does not raise). -/
def tcIncluded (cfg : Config) (tid : Nat) (snap : CommentsState) (c : Comment) : Bool :=
  match tcThreshold cfg tid snap, strptime c.created_at with
  | Option.some thr, Option.some ca => decide (thr < ca)
  | _, _ => false

/-- Anatomy of a successful comment step: the intermediate values of the
loop body, the resulting cursor, and the yield decision. -/
theorem TicketComments.syncStep_char {cfg : Config} {tid : Nat} {s : SyncSt}
    {c : Comment} {s' : SyncSt} {y : Bool}
    (h : TicketComments.syncStep cfg tid s c = Option.some (s', y)) :
    ∃ live snap m m2 thr ca,
      tcInit tid s = Option.some (live, snap) ∧
      live.tcEntry = Option.some m ∧
      tcLiveUpdate tid m c.created_at = Option.some m2 ∧
      tcThreshold cfg tid snap = Option.some thr ∧
      strptime c.created_at = Option.some ca ∧
      s' = { state := { live with tcEntry := Option.some m2 },
             inst := Option.some snap } ∧
      y = decide (thr < ca) := by
  rw [TicketComments.syncStep] at h
  split at h
  · cases h
  · rename_i live snap h0
    split at h
    · cases h
    · rename_i m h1
      split at h
      · cases h
      · rename_i m2 h2
        split at h
        · cases h
        · rename_i thr h3
          split at h
          · cases h
          · rename_i ca h4
            simp only [Option.some.injEq, Prod.mk.injEq] at h
            exact ⟨live, snap, m, m2, thr, ca, h0, h1, h2, h3, h4,
              h.1.symm, h.2.symm⟩

/-- With the snapshot already frozen, a successful step keeps the snapshot
and decides inclusion by `tcIncluded` of that snapshot. -/
theorem TicketComments.syncStep_frozen {cfg : Config} {tid : Nat} {s : SyncSt}
    {c : Comment} {snap : CommentsState} {s' : SyncSt} {y : Bool}
    (hinst : s.inst = Option.some snap)
    (h : TicketComments.syncStep cfg tid s c = Option.some (s', y)) :
    s'.inst = Option.some snap ∧ y = tcIncluded cfg tid snap c := by
  obtain ⟨live, snap', m, m2, thr, ca, h0, h1, h2, h3, h4, hs', hy⟩ :=
    TicketComments.syncStep_char h
  have hsnap : snap' = snap ∧ live = s.state := by
    rw [tcInit, hinst] at h0
    simp only [Option.some.injEq, Prod.mk.injEq] at h0
    exact ⟨h0.2.symm, h0.1.symm⟩
  obtain ⟨rfl, rfl⟩ := hsnap
  subst hs'
  refine ⟨rfl, ?_⟩
  rw [hy, tcIncluded, h3, h4]

/-- C4 (confirmed).  The threshold for every comment is resolved against
the frozen snapshot with fixed precedence — (a) the per-ticket entry at
the string ticket id when a truthy one is present in the snapshot, else
(b) the truthy ticket-stream bookmark recorded in the snapshot, else (c)
the configured start date — and a comment is yielded iff its `created_at`
parses strictly above the resolved threshold.  The decision is a function
of the snapshot alone: two cursors with the same snapshot but arbitrarily
different live states decide identically, a full call yields exactly the
filter of its comments by the snapshot threshold, and the first step of a
run freezes the snapshot produced by the first-invocation block. -/
theorem TicketComments.threshold_frozen (cfg : Config) (tid : Nat) (snap : CommentsState) :
    (∀ s c s' y, s.inst = Option.some snap →
      TicketComments.syncStep cfg tid s c = Option.some (s', y) →
      y = tcIncluded cfg tid snap c) ∧
    (∀ s₁ s₂ c r₁ r₂, s₁.inst = Option.some snap → s₂.inst = Option.some snap →
      TicketComments.syncStep cfg tid s₁ c = Option.some r₁ →
      TicketComments.syncStep cfg tid s₂ c = Option.some r₂ →
      r₁.2 = r₂.2) ∧
    (∀ cs s s' ys, s.inst = Option.some snap →
      TicketComments.sync cfg tid s cs = Option.some (s', ys) →
      ys = cs.filter (tcIncluded cfg tid snap)) ∧
    (∀ m, snap.tcEntry = Option.some m →
      (∀ v, dictGet m (PyKey.str (pyStr tid)) = Option.some v → truthy v = true →
        tcThreshold cfg tid snap = strptime v) ∧
      (pyTruthyOpt (dictGet m (PyKey.str (pyStr tid))) = false →
        ∀ gts, snap.tickets = Option.some gts →
          (∀ v, gts = Option.some v → truthy v = true →
            tcThreshold cfg tid snap = strptime v) ∧
          (pyTruthyOpt gts = false →
            tcThreshold cfg tid snap = strptime cfg.start_date))) ∧
    (∀ s c s' y, s.inst = Option.none →
      TicketComments.syncStep cfg tid s c = Option.some (s', y) →
      ∃ snapSt, tcFirstBlock tid s.state = Option.some snapSt ∧
        s'.inst = Option.some snapSt ∧ y = tcIncluded cfg tid snapSt c) := by
  refine ⟨?_, ?_, ?_, ?_, ?_⟩
  · intro s c s' y hinst h
    exact (TicketComments.syncStep_frozen hinst h).2
  · intro s₁ s₂ c r₁ r₂ h₁ h₂ hs₁ hs₂
    obtain ⟨r₁s, r₁y⟩ := r₁
    obtain ⟨r₂s, r₂y⟩ := r₂
    rw [(TicketComments.syncStep_frozen h₁ hs₁).2,
      (TicketComments.syncStep_frozen h₂ hs₂).2]
  · intro cs
    induction cs with
    | nil =>
      intro s s' ys _ h
      rw [TicketComments.sync] at h
      simp only [Option.some.injEq, Prod.mk.injEq] at h
      simp [← h.2]
    | cons c cs ih =>
      intro s s' ys hinst h
      rw [TicketComments.sync] at h
      split at h
      · cases h
      · rename_i s₁ y h0
        split at h
        · cases h
        · rename_i s₂ ys₂ h1
          simp only [Option.some.injEq, Prod.mk.injEq] at h
          obtain ⟨hfroz, hy⟩ := TicketComments.syncStep_frozen hinst h0
          have hys₂ := ih s₁ s₂ ys₂ hfroz h1
          rw [← h.2, hys₂, hy, List.filter_cons]
  · intro m hm
    obtain ⟨tks, tce⟩ := snap
    dsimp only at hm
    subst hm
    constructor
    · intro v hv htv
      simp only [tcThreshold, hv, pyTruthyOpt, htv, if_true]
    · intro hfalsy gts hgts
      dsimp only at hgts
      subst hgts
      constructor
      · intro v hv htv
        subst hv
        have hpt : pyTruthyOpt (Option.some v) = true := htv
        simp only [tcThreshold, hfalsy, Bool.false_eq_true, if_false, hpt, if_true]
      · intro hgf
        simp only [tcThreshold, hfalsy, Bool.false_eq_true, if_false, hgf]
  · intro s c s' y hnone h
    obtain ⟨live, snap', m, m2, thr, ca, h0, h1, h2, h3, h4, hs', hy⟩ :=
      TicketComments.syncStep_char h
    rw [tcInit, hnone] at h0
    cases hfb : tcFirstBlock tid s.state with
    | none => rw [hfb] at h0; cases h0
    | some st =>
      rw [hfb] at h0
      simp only [Option.some.injEq, Prod.mk.injEq] at h0
      obtain ⟨hlive, hsnap⟩ := h0
      refine ⟨st, rfl, ?_, ?_⟩
      · rw [hs', hsnap]
      · rw [hy, hsnap]
        simp [tcIncluded, h3, h4]

/-- C4 witness: with a frozen snapshot whose per-ticket entry for ticket 5
is `"10"`, a comment at `"15"` is decided included regardless of the live
state. -/
theorem TicketComments.threshold_frozen_witness :
    (SyncSt.mk
        (CommentsState.mk (Option.some (Option.some (Val.str "20")))
          (Option.some [(PyKey.str (pyStr 5), Val.str "10")]))
        (Option.some (CommentsState.mk (Option.some (Option.some (Val.str "20")))
          (Option.some [(PyKey.str (pyStr 5), Val.str "10")])))).inst =
      Option.some (CommentsState.mk (Option.some (Option.some (Val.str "20")))
        (Option.some [(PyKey.str (pyStr 5), Val.str "10")])) ∧
    true = tcIncluded (Config.mk (Val.str "0")) 5
      (CommentsState.mk (Option.some (Option.some (Val.str "20")))
        (Option.some [(PyKey.str (pyStr 5), Val.str "10")]))
      (Comment.mk (Val.str "15")) :=
  ⟨rfl,
   (TicketComments.threshold_frozen (Config.mk (Val.str "0")) 5
      (CommentsState.mk (Option.some (Option.some (Val.str "20")))
        (Option.some [(PyKey.str (pyStr 5), Val.str "10")]))).1
    (SyncSt.mk
      (CommentsState.mk (Option.some (Option.some (Val.str "20")))
        (Option.some [(PyKey.str (pyStr 5), Val.str "10")]))
      (Option.some (CommentsState.mk (Option.some (Option.some (Val.str "20")))
        (Option.some [(PyKey.str (pyStr 5), Val.str "10")]))))
    (Comment.mk (Val.str "15"))
    (SyncSt.mk
      (CommentsState.mk (Option.some (Option.some (Val.str "20")))
        (Option.some [(PyKey.str (pyStr 5), Val.str "10"),
                      (PyKey.int 5, Val.str "15")]))
      (Option.some (CommentsState.mk (Option.some (Option.some (Val.str "20")))
        (Option.some [(PyKey.str (pyStr 5), Val.str "10")]))))
    true rfl (by decide)⟩

/-- C3 (confirmed).  A record whose replication-key value parses exactly
to the bookmark at stream start is yielded by the order-untrusted
`Groups.sync` (inclusive `>=` test, and the equal value does not move the
bookmark), while a comment whose `created_at` parses exactly to the
resolved threshold is not yielded by `TicketComments.sync` (strict `>`
test). -/
theorem boundary_inclusion :
    (∀ (state : Val) (g : GroupRec) (b : Nat),
      strptime state = Option.some b → strptime g.updated_at = Option.some b →
      Groups.sync state [g] = Option.some ([g], state)) ∧
    (∀ (cfg : Config) (tid : Nat) (s : SyncSt) (snap : CommentsState) (c : Comment)
        (m m2 : TCMap) (t : Nat),
      s.inst = Option.some snap → s.state.tcEntry = Option.some m →
      tcLiveUpdate tid m c.created_at = Option.some m2 →
      tcThreshold cfg tid snap = Option.some t →
      strptime c.created_at = Option.some t →
      TicketComments.syncStep cfg tid s c =
        Option.some ({ state := { s.state with tcEntry := Option.some m2 },
                       inst := Option.some snap }, false)) := by
  constructor
  · intro state g b hs hu
    have hub := update_bookmark_parse hs hu
    simp only [Groups.sync, hs, Groups.syncGo, hu, Nat.le_refl, if_true]
    rw [hub]
    simp [Nat.lt_irrefl]
  · intro cfg tid s snap c m m2 t hinst hentry hupd hthr hca
    have hinit : tcInit tid s = Option.some (s.state, snap) := by
      rw [tcInit, hinst]
    rw [TicketComments.syncStep]
    simp only [hinit, hentry, hupd, hthr, hca]
    simp [Nat.lt_irrefl]

/-- C3 witness: the group record at `"5"` equal to the start bookmark
`"5"` is yielded without moving the bookmark; the comment at `"10"` equal
to the snapshot threshold `"10"` for ticket 5 is not yielded. -/
theorem boundary_inclusion_witness :
    Groups.sync (Val.str "5") [GroupRec.mk (Val.str "5")] =
      Option.some ([GroupRec.mk (Val.str "5")], Val.str "5") ∧
    TicketComments.syncStep (Config.mk (Val.str "0")) 5
      (SyncSt.mk
        (CommentsState.mk (Option.some (Option.some (Val.str "20")))
          (Option.some [(PyKey.str (pyStr 5), Val.str "10")]))
        (Option.some (CommentsState.mk (Option.some (Option.some (Val.str "20")))
          (Option.some [(PyKey.str (pyStr 5), Val.str "10")]))))
      (Comment.mk (Val.str "10")) =
      Option.some
        (SyncSt.mk
          (CommentsState.mk (Option.some (Option.some (Val.str "20")))
            (Option.some [(PyKey.str (pyStr 5), Val.str "10"),
                          (PyKey.int 5, Val.str "10")]))
          (Option.some (CommentsState.mk (Option.some (Option.some (Val.str "20")))
            (Option.some [(PyKey.str (pyStr 5), Val.str "10")]))),
         false) :=
  ⟨boundary_inclusion.1 (Val.str "5") (GroupRec.mk (Val.str "5")) 5 (by decide) (by decide),
   boundary_inclusion.2 (Config.mk (Val.str "0")) 5
    (SyncSt.mk
      (CommentsState.mk (Option.some (Option.some (Val.str "20")))
        (Option.some [(PyKey.str (pyStr 5), Val.str "10")]))
      (Option.some (CommentsState.mk (Option.some (Option.some (Val.str "20")))
        (Option.some [(PyKey.str (pyStr 5), Val.str "10")]))))
    (CommentsState.mk (Option.some (Option.some (Val.str "20")))
      (Option.some [(PyKey.str (pyStr 5), Val.str "10")]))
    (Comment.mk (Val.str "10"))
    [(PyKey.str (pyStr 5), Val.str "10")]
    [(PyKey.str (pyStr 5), Val.str "10"), (PyKey.int 5, Val.str "10")]
    10 rfl rfl (by decide) (by decide) (by decide)⟩

/-! Claim C8: invariants of the per-parent comment bookmark map across a
run. -/

/-- The per-parent comment bookmark map held by a cursor (`{}` when the
entry is absent). -/
def bookmarkMapOf (s : SyncSt) : TCMap := s.state.tcEntry.getD []

/-- Every value stored in the map parses as a timestamp. -/
def EntriesParse (m : TCMap) : Prop :=
  ∀ k v, dictGet m k = Option.some v → (strptime v).isSome = true

/-- The parsed `created_at` values observed for ticket `tid` in a
processed sequence. -/
def observed (l : List (Nat × Comment)) (tid : Nat) : List Nat :=
  l.filterMap (fun p => if p.1 = tid then strptime p.2.created_at else Option.none)

/-- The maximum of a list of parsed timestamps. -/
def maxNat (l : List Nat) : Nat := l.foldl max 0

/-- One bookmark value evolves into another: unchanged, or replaced by a
strictly later parsed timestamp. -/
def bmLE (v₁ v₂ : Val) : Prop :=
  v₂ = v₁ ∨ ∃ a b, strptime v₁ = Option.some a ∧ strptime v₂ = Option.some b ∧ a < b

theorem bmLE_refl (v : Val) : bmLE v v := Or.inl rfl

theorem bmLE_trans {v₁ v₂ v₃ : Val} (h₁ : bmLE v₁ v₂) (h₂ : bmLE v₂ v₃) :
    bmLE v₁ v₃ := by
  rcases h₁ with rfl | ⟨a, b, ha, hb, hab⟩
  · exact h₂
  · rcases h₂ with rfl | ⟨b', c, hb', hc, hbc⟩
    · exact Or.inr ⟨a, b, ha, hb, hab⟩
    · rw [hb] at hb'
      obtain rfl : b = b' := by injection hb'
      exact Or.inr ⟨a, c, ha, hc, Nat.lt_trans hab hbc⟩

theorem dictGet_dictSet (m : TCMap) (k k' : PyKey) (v : Val) :
    dictGet (dictSet m k v) k' =
      if k = k' then Option.some v else dictGet m k' := by
  by_cases h : k = k'
  · subst h
    rw [dictGet_dictSet_self, if_pos rfl]
  · rw [dictGet_dictSet_ne m k k' v h, if_neg h]

theorem EntriesParse_dictSet {m : TCMap} {k : PyKey} {w : Val}
    (hm : EntriesParse m) (hw : (strptime w).isSome = true) :
    EntriesParse (dictSet m k w) := by
  intro k' v hv
  rw [dictGet_dictSet] at hv
  split at hv
  · obtain rfl : w = v := by injection hv
    exact hw
  · exact hm k' v hv

theorem tcSteps_append (cfg : Config) : ∀ (xs ys : List (Nat × Comment)) (s : SyncSt),
    tcSteps cfg s (xs ++ ys) =
      match tcSteps cfg s xs with
      | Option.none => Option.none
      | Option.some s₁ => tcSteps cfg s₁ ys := by
  intro xs
  induction xs with
  | nil => intro ys s; rfl
  | cons p ps ih =>
    intro ys s
    rw [List.cons_append, tcSteps, tcSteps]
    cases h : TicketComments.syncStep cfg p.1 s p.2 with
    | none => rfl
    | some q => exact ih ys q.1

/-- The live-update stage on a map whose entries parse: it never raises,
and it either creates the integer-keyed entry or advances it by a strict
parsed maximum. -/
theorem tcLiveUpdate_char (tid : Nat) (m : TCMap) (w : Val)
    (hm : EntriesParse m) (hw : (strptime w).isSome = true) :
    ∃ m₂, tcLiveUpdate tid m w = Option.some m₂ ∧
      ((dictGet m (PyKey.int tid) = Option.none ∧
          m₂ = dictSet m (PyKey.int tid) w) ∨
       (∃ cur a ca, dictGet m (PyKey.int tid) = Option.some cur ∧
          strptime cur = Option.some a ∧ strptime w = Option.some ca ∧
          ((a < ca ∧ m₂ = dictSet m (PyKey.int tid) w) ∨ (¬ a < ca ∧ m₂ = m)))) := by
  cases hget : dictGet m (PyKey.int tid) with
  | none =>
    refine ⟨dictSet m (PyKey.int tid) w, ?_, Or.inl ⟨rfl, rfl⟩⟩
    rw [tcLiveUpdate, hget]
  | some cur =>
    have hcur : (strptime cur).isSome = true := hm (PyKey.int tid) cur hget
    rcases Option.isSome_iff_exists.mp hcur with ⟨a, ha⟩
    rcases Option.isSome_iff_exists.mp hw with ⟨ca, hca⟩
    have htc : truthy cur = true := truthy_of_strptime_isSome hcur
    have htw : truthy w = true := truthy_of_strptime_isSome hw
    by_cases hlt : a < ca
    · refine ⟨dictSet m (PyKey.int tid) w, ?_,
        Or.inr ⟨cur, a, ca, rfl, ha, hca, Or.inl ⟨hlt, rfl⟩⟩⟩
      rw [tcLiveUpdate, hget]
      simp only [htc, if_true, ha, htw, hca]
      rw [if_pos hlt]
    · refine ⟨m, ?_, Or.inr ⟨cur, a, ca, rfl, ha, hca, Or.inr ⟨hlt, rfl⟩⟩⟩
      rw [tcLiveUpdate, hget]
      simp only [htc, if_true, ha, htw, hca]
      rw [if_neg hlt]

/-- A comment step taken after the snapshot is frozen, on a live map whose
entries parse and for a resolvable threshold: it never raises, keeps
`tickets` and the snapshot, and transforms the map per
`tcLiveUpdate_char`. -/
theorem TicketComments.syncStep_mid (cfg : Config) (snap : CommentsState) (tid : Nat)
    (c : Comment) (st : CommentsState) (m : TCMap)
    (hentry : st.tcEntry = Option.some m) (hm : EntriesParse m)
    (hThr : (tcThreshold cfg tid snap).isSome = true)
    (hca : (strptime c.created_at).isSome = true) :
    ∃ m₂ y, TicketComments.syncStep cfg tid (SyncSt.mk st (Option.some snap)) c =
        Option.some (SyncSt.mk (CommentsState.mk st.tickets (Option.some m₂))
          (Option.some snap), y) ∧
      ((dictGet m (PyKey.int tid) = Option.none ∧
          m₂ = dictSet m (PyKey.int tid) c.created_at) ∨
       (∃ cur a ca, dictGet m (PyKey.int tid) = Option.some cur ∧
          strptime cur = Option.some a ∧ strptime c.created_at = Option.some ca ∧
          ((a < ca ∧ m₂ = dictSet m (PyKey.int tid) c.created_at) ∨
           (¬ a < ca ∧ m₂ = m)))) := by
  obtain ⟨m₂, hupd, hchar⟩ := tcLiveUpdate_char tid m c.created_at hm hca
  rcases Option.isSome_iff_exists.mp hThr with ⟨thr, hthr⟩
  rcases Option.isSome_iff_exists.mp hca with ⟨ca, hca'⟩
  refine ⟨m₂, decide (thr < ca), ?_, hchar⟩
  have hinit : tcInit tid (SyncSt.mk st (Option.some snap)) =
      Option.some (st, snap) := rfl
  rw [TicketComments.syncStep]
  simp only [hinit, hentry, hupd, hthr, hca']

theorem maxNat_cons (x : Nat) (l : List Nat) : maxNat (x :: l) = l.foldl max x := by
  simp [maxNat, List.foldl_cons, Nat.zero_max]

/-- Invariant propagation for any interleaving of comment steps taken
after the snapshot is frozen: the run never raises; entries keep parsing;
every existing entry survives, unchanged or strictly advanced; string keys
are never written; and the integer-keyed entry of each ticket folds the
maximum of its observed `created_at` values. -/
theorem tcSteps_mid (cfg : Config) (snap : CommentsState)
    (hThr : ∀ tid, (tcThreshold cfg tid snap).isSome = true) :
    ∀ (ps : List (Nat × Comment)) (st : CommentsState) (m : TCMap),
      st.tcEntry = Option.some m →
      EntriesParse m →
      (∀ p ∈ ps, (strptime p.2.created_at).isSome = true) →
      ∃ m', tcSteps cfg (SyncSt.mk st (Option.some snap)) ps =
          Option.some (SyncSt.mk (CommentsState.mk st.tickets (Option.some m'))
            (Option.some snap)) ∧
        EntriesParse m' ∧
        (∀ k v, dictGet m k = Option.some v →
          ∃ v', dictGet m' k = Option.some v' ∧ bmLE v v') ∧
        (∀ x, dictGet m' (PyKey.str x) = dictGet m (PyKey.str x)) ∧
        (∀ tid,
          (dictGet m (PyKey.int tid) = Option.none →
            (observed ps tid = [] → dictGet m' (PyKey.int tid) = Option.none) ∧
            (observed ps tid ≠ [] →
              ∃ v', dictGet m' (PyKey.int tid) = Option.some v' ∧
                strptime v' = Option.some (maxNat (observed ps tid)))) ∧
          (∀ v a, dictGet m (PyKey.int tid) = Option.some v →
            strptime v = Option.some a →
            ∃ v', dictGet m' (PyKey.int tid) = Option.some v' ∧
              strptime v' = Option.some ((observed ps tid).foldl max a))) := by
  intro ps
  induction ps with
  | nil =>
    intro st m hentry hm _
    obtain ⟨tks, tce⟩ := st
    dsimp only at hentry
    subst hentry
    refine ⟨m, rfl, hm, ?_, ?_, ?_⟩
    · intro k v hv
      exact ⟨v, hv, bmLE_refl v⟩
    · intro x
      rfl
    · intro tid
      refine ⟨fun hnone => ⟨fun _ => hnone, fun hne => absurd rfl hne⟩, ?_⟩
      intro v a hv ha
      exact ⟨v, hv, ha⟩
  | cons p ps ih =>
    intro st m hentry hm hps
    obtain ⟨tid₀, c⟩ := p
    have hca : (strptime c.created_at).isSome = true :=
      hps (tid₀, c) (List.mem_cons_self _ _)
    rcases Option.isSome_iff_exists.mp hca with ⟨ca, hcaeq⟩
    obtain ⟨m₂, y, hstep, hchar⟩ :=
      TicketComments.syncStep_mid cfg snap tid₀ c st m hentry hm (hThr tid₀) hca
    have hm₂ : EntriesParse m₂ := by
      rcases hchar with ⟨_, rfl⟩ | ⟨cur, a, ca', _, _, _, hwr⟩
      · exact EntriesParse_dictSet hm hca
      · rcases hwr with ⟨_, rfl⟩ | ⟨_, rfl⟩
        · exact EntriesParse_dictSet hm hca
        · exact hm
    have hrest : ∀ q ∈ ps, (strptime q.2.created_at).isSome = true :=
      fun q hq => hps q (List.mem_cons_of_mem _ hq)
    obtain ⟨m', hsteps, hm', hmono, hstr, hint⟩ :=
      ih (CommentsState.mk st.tickets (Option.some m₂)) m₂ rfl hm₂ hrest
    refine ⟨m', ?_, hm', ?_, ?_, ?_⟩
    · rw [tcSteps]
      simp only [hstep]
      exact hsteps
    · intro k v hv
      have hstepmono : ∃ v₂, dictGet m₂ k = Option.some v₂ ∧ bmLE v v₂ := by
        rcases hchar with ⟨hget, rfl⟩ | ⟨cur, a, ca', hget, ha, hca', hwr⟩
        · by_cases hk : PyKey.int tid₀ = k
          · subst hk
            rw [hget] at hv
            cases hv
          · refine ⟨v, ?_, bmLE_refl v⟩
            rw [dictGet_dictSet, if_neg hk]
            exact hv
        · rcases hwr with ⟨hlt, rfl⟩ | ⟨_, rfl⟩
          · by_cases hk : PyKey.int tid₀ = k
            · subst hk
              rw [hget] at hv
              obtain rfl : cur = v := by injection hv
              exact ⟨c.created_at, by rw [dictGet_dictSet, if_pos rfl],
                Or.inr ⟨a, ca', ha, hca', hlt⟩⟩
            · refine ⟨v, ?_, bmLE_refl v⟩
              rw [dictGet_dictSet, if_neg hk]
              exact hv
          · exact ⟨v, hv, bmLE_refl v⟩
      obtain ⟨v₂, hv₂, hbm⟩ := hstepmono
      obtain ⟨v', hv', hbm'⟩ := hmono k v₂ hv₂
      exact ⟨v', hv', bmLE_trans hbm hbm'⟩
    · intro x
      rw [hstr x]
      rcases hchar with ⟨_, rfl⟩ | ⟨cur, a, ca', _, _, _, hwr⟩
      · rw [dictGet_dictSet, if_neg (by simp)]
      · rcases hwr with ⟨_, rfl⟩ | ⟨_, rfl⟩
        · rw [dictGet_dictSet, if_neg (by simp)]
        · rfl
    · intro tid
      by_cases htid : tid₀ = tid
      · subst htid
        have hobs : observed ((tid₀, c) :: ps) tid₀ = ca :: observed ps tid₀ := by
          simp [observed, List.filterMap_cons, hcaeq]
        constructor
        · intro hnone
          rcases hchar with ⟨hget, rfl⟩ | ⟨cur, a, ca', hget, _, _, _⟩
          · have hm₂get : dictGet (dictSet m (PyKey.int tid₀) c.created_at)
                (PyKey.int tid₀) = Option.some c.created_at := dictGet_dictSet_self m _ _
            constructor
            · intro hemp
              rw [hobs] at hemp
              cases hemp
            · intro _
              obtain ⟨v', hv', hpar⟩ := (hint tid₀).2 c.created_at ca hm₂get hcaeq
              refine ⟨v', hv', ?_⟩
              rw [hpar, hobs, maxNat_cons]
          · rw [hnone] at hget
            cases hget
        · intro v a hv ha
          rcases hchar with ⟨hget, rfl⟩ | ⟨cur, a', ca', hget, ha', hca', hwr⟩
          · rw [hget] at hv
            cases hv
          · rw [hget] at hv
            obtain rfl : cur = v := by injection hv
            rw [ha] at ha'
            obtain rfl : a = a' := by injection ha'
            rw [hcaeq] at hca'
            obtain rfl : ca = ca' := by injection hca'
            rcases hwr with ⟨hlt, rfl⟩ | ⟨hnlt, rfl⟩
            · have hm₂get : dictGet (dictSet m (PyKey.int tid₀) c.created_at)
                  (PyKey.int tid₀) = Option.some c.created_at := dictGet_dictSet_self m _ _
              obtain ⟨v', hv', hpar⟩ := (hint tid₀).2 c.created_at ca hm₂get hcaeq
              refine ⟨v', hv', ?_⟩
              rw [hpar, hobs]
              congr 1
              rw [List.foldl_cons]
              congr 1
              omega
            · obtain ⟨v', hv', hpar⟩ := (hint tid₀).2 cur a hget ha
              refine ⟨v', hv', ?_⟩
              rw [hpar, hobs]
              congr 1
              rw [List.foldl_cons]
              congr 1
              omega
      · have hobs : observed ((tid₀, c) :: ps) tid = observed ps tid := by
          simp [observed, List.filterMap_cons, htid]
        have hsame : dictGet m₂ (PyKey.int tid) = dictGet m (PyKey.int tid) := by
          rcases hchar with ⟨_, rfl⟩ | ⟨cur, a, ca', _, _, _, hwr⟩
          · rw [dictGet_dictSet, if_neg (by simp [htid])]
          · rcases hwr with ⟨_, rfl⟩ | ⟨_, rfl⟩
            · rw [dictGet_dictSet, if_neg (by simp [htid])]
            · rfl
        rw [hobs, ← hsame]
        exact hint tid

/-- After seeding, the snapshot resolves a threshold for every ticket id:
either the seeded string entry (which parses) or the recorded
ticket-stream bookmark (which parses). -/
theorem seededThr (cfg : Config) (gv : Val) (gts t₀ : Nat)
    (hgv : strptime gv = Option.some gts) :
    ∀ tid, (tcThreshold cfg tid (CommentsState.mk (Option.some (Option.some gv))
      (Option.some [(PyKey.str (pyStr t₀), gv)]))).isSome = true := by
  intro tid
  have hpt : pyTruthyOpt (Option.some gv) = true :=
    truthy_of_strptime_isSome (by rw [hgv]; rfl)
  by_cases hk : PyKey.str (pyStr t₀) = PyKey.str (pyStr tid)
  · have hget : dictGet [(PyKey.str (pyStr t₀), gv)] (PyKey.str (pyStr tid)) =
        Option.some gv := by
      simp [dictGet, hk]
    simp only [tcThreshold, hget, hpt, if_true, hgv]
    rfl
  · have hget : dictGet [(PyKey.str (pyStr t₀), gv)] (PyKey.str (pyStr tid)) =
        Option.none := by
      simp [dictGet, hk]
    have ht : truthy gv = true := hpt
    simp only [tcThreshold, hget]
    simp [pyTruthyOpt, ht, hgv]

/-- The first comment step of a run starting with no per-ticket map:
`ensure_bookmark_path` creates the map, the guard fires, the map is seeded
with the string-keyed ticket-stream bookmark, the snapshot freezes that
seeded state, and the live update then adds the integer-keyed entry for
the first comment. -/
theorem tcFirstStep (cfg : Config) (gv : Val) (gts t₀ : Nat) (c₀ : Comment)
    (tce : Option TCMap)
    (hentry : tce = Option.none ∨ tce = Option.some ([] : TCMap))
    (hgv : strptime gv = Option.some gts)
    (hca : (strptime c₀.created_at).isSome = true) :
    ∃ y, TicketComments.syncStep cfg t₀
        (SyncSt.mk (CommentsState.mk (Option.some (Option.some gv)) tce) Option.none) c₀ =
      Option.some (SyncSt.mk
        (CommentsState.mk (Option.some (Option.some gv))
          (Option.some [(PyKey.str (pyStr t₀), gv), (PyKey.int t₀, c₀.created_at)]))
        (Option.some (CommentsState.mk (Option.some (Option.some gv))
          (Option.some [(PyKey.str (pyStr t₀), gv)]))), y) := by
  have hfb : tcFirstBlock t₀ (CommentsState.mk (Option.some (Option.some gv)) tce) =
      Option.some (CommentsState.mk (Option.some (Option.some gv))
        (Option.some [(PyKey.str (pyStr t₀), gv)])) := by
    rcases hentry with rfl | rfl <;> rfl
  have hinit : tcInit t₀
      (SyncSt.mk (CommentsState.mk (Option.some (Option.some gv)) tce) Option.none) =
      Option.some (CommentsState.mk (Option.some (Option.some gv))
          (Option.some [(PyKey.str (pyStr t₀), gv)]),
        CommentsState.mk (Option.some (Option.some gv))
          (Option.some [(PyKey.str (pyStr t₀), gv)])) := by
    rw [tcInit]
    simp only [hfb]
  have hupd : tcLiveUpdate t₀ [(PyKey.str (pyStr t₀), gv)] c₀.created_at =
      Option.some [(PyKey.str (pyStr t₀), gv), (PyKey.int t₀, c₀.created_at)] := by
    have hget : dictGet [(PyKey.str (pyStr t₀), gv)] (PyKey.int t₀) = Option.none := by
      simp [dictGet]
    rw [tcLiveUpdate, hget]
    simp [dictSet]
  have hthr : tcThreshold cfg t₀ (CommentsState.mk (Option.some (Option.some gv))
      (Option.some [(PyKey.str (pyStr t₀), gv)])) = Option.some gts := by
    have hget : dictGet [(PyKey.str (pyStr t₀), gv)] (PyKey.str (pyStr t₀)) =
        Option.some gv := by
      simp [dictGet]
    have hpt : pyTruthyOpt (Option.some gv) = true :=
      truthy_of_strptime_isSome (by rw [hgv]; rfl)
    simp only [tcThreshold, hget, hpt, if_true, hgv]
  rcases Option.isSome_iff_exists.mp hca with ⟨ca, hcaeq⟩
  refine ⟨decide (gts < ca), ?_⟩
  rw [TicketComments.syncStep]
  simp only [hinit, hupd, hthr, hcaeq]

/-- C8 counterexample.  Tickets bookmark `"10"`, no prior map, one comment
for ticket 5 at `"3"`.  After the run the map holds the seeded entry
`str "5" ↦ "10"` alongside the live entry `int 5 ↦ "3"`.  The seeded
entry denotes ticket 5 but parses to 10, while the maximum `created_at`
observed for ticket 5 is 3: not every entry equals the maximum observed
`created_at` for its ticket id. -/
theorem tc_seed_entry_not_max :
    tcSteps (Config.mk (Val.str "0"))
        (SyncSt.mk (CommentsState.mk (Option.some (Option.some (Val.str "10")))
          Option.none) Option.none)
        [(5, Comment.mk (Val.str "3"))] =
      Option.some (SyncSt.mk
        (CommentsState.mk (Option.some (Option.some (Val.str "10")))
          (Option.some [(PyKey.str "5", Val.str "10"), (PyKey.int 5, Val.str "3")]))
        (Option.some (CommentsState.mk (Option.some (Option.some (Val.str "10")))
          (Option.some [(PyKey.str "5", Val.str "10")])))) ∧
    dictGet [(PyKey.str "5", Val.str "10"), (PyKey.int 5, Val.str "3")]
      (PyKey.str "5") = Option.some (Val.str "10") ∧
    observed [(5, Comment.mk (Val.str "3"))] 5 = [3] ∧
    strptime (Val.str "10") = Option.some 10 ∧
    maxNat [3] = 3 ∧ (10 : Nat) ≠ 3 := by
  refine ⟨?_, ?_, ?_, ?_, ?_, ?_⟩ <;> decide

/-- C8 (amended).  For a run from a state with no per-ticket map (the map
is created and seeded at the first comment), any interleaving of comments
with valid timestamps maintains: the run never raises; every entry, once
present after any prefix, is still present at the end, unchanged or
replaced by a strictly later parsed timestamp (per-entry monotonicity and
an additive-only map); every integer-keyed entry — the ones maintained by
the live per-comment update — equals the maximum `created_at` observed so
far for its ticket id; and the one string-keyed entry, seeded from the
ticket-stream bookmark for the first ticket, keeps that bookmark value and
is exempt from the maximum-observed characterization. -/
theorem TicketComments.bookmark_map_invariants (cfg : Config) (gv : Val)
    (gts t₀ : Nat) (c₀ : Comment) (tce : Option TCMap)
    (rest : List (Nat × Comment))
    (hentry : tce = Option.none ∨ tce = Option.some [])
    (hgv : strptime gv = Option.some gts)
    (hl : ∀ p ∈ (t₀, c₀) :: rest, (strptime p.2.created_at).isSome = true) :
    ∃ s', tcSteps cfg
        (SyncSt.mk (CommentsState.mk (Option.some (Option.some gv)) tce) Option.none)
        ((t₀, c₀) :: rest) = Option.some s' ∧
      (∀ n s₁ k v,
        tcSteps cfg
          (SyncSt.mk (CommentsState.mk (Option.some (Option.some gv)) tce) Option.none)
          (((t₀, c₀) :: rest).take n) = Option.some s₁ →
        dictGet (bookmarkMapOf s₁) k = Option.some v →
        ∃ v', dictGet (bookmarkMapOf s') k = Option.some v' ∧ bmLE v v') ∧
      (∀ tid,
        (observed ((t₀, c₀) :: rest) tid = [] →
          dictGet (bookmarkMapOf s') (PyKey.int tid) = Option.none) ∧
        (observed ((t₀, c₀) :: rest) tid ≠ [] →
          ∃ v, dictGet (bookmarkMapOf s') (PyKey.int tid) = Option.some v ∧
            strptime v = Option.some (maxNat (observed ((t₀, c₀) :: rest) tid)))) ∧
      dictGet (bookmarkMapOf s') (PyKey.str (pyStr t₀)) = Option.some gv := by
  have hca : (strptime c₀.created_at).isSome = true :=
    hl (t₀, c₀) (List.mem_cons_self _ _)
  rcases Option.isSome_iff_exists.mp hca with ⟨ca₀, hca₀⟩
  obtain ⟨y₀, hstep0⟩ := tcFirstStep cfg gv gts t₀ c₀ tce hentry hgv hca
  have hThr := seededThr cfg gv gts t₀ hgv
  have hm₁ : EntriesParse [(PyKey.str (pyStr t₀), gv), (PyKey.int t₀, c₀.created_at)] := by
    intro k v hv
    rw [dictGet] at hv
    split at hv
    · obtain rfl : gv = v := by injection hv
      rw [hgv]
      rfl
    · rw [dictGet] at hv
      split at hv
      · obtain rfl : c₀.created_at = v := by injection hv
        exact hca
      · cases hv
  have hrest : ∀ q ∈ rest, (strptime q.2.created_at).isSome = true :=
    fun q hq => hl q (List.mem_cons_of_mem _ hq)
  obtain ⟨m', hsteps, hm', hmono, hstr, hint⟩ :=
    tcSteps_mid cfg
      (CommentsState.mk (Option.some (Option.some gv))
        (Option.some [(PyKey.str (pyStr t₀), gv)]))
      hThr rest
      (CommentsState.mk (Option.some (Option.some gv))
        (Option.some [(PyKey.str (pyStr t₀), gv), (PyKey.int t₀, c₀.created_at)]))
      [(PyKey.str (pyStr t₀), gv), (PyKey.int t₀, c₀.created_at)]
      rfl hm₁ hrest
  have hrun : tcSteps cfg
      (SyncSt.mk (CommentsState.mk (Option.some (Option.some gv)) tce) Option.none)
      ((t₀, c₀) :: rest) =
      Option.some (SyncSt.mk
        (CommentsState.mk (Option.some (Option.some gv)) (Option.some m'))
        (Option.some (CommentsState.mk (Option.some (Option.some gv))
          (Option.some [(PyKey.str (pyStr t₀), gv)])))) := by
    rw [tcSteps]
    simp only [hstep0]
    exact hsteps
  refine ⟨_, hrun, ?_, ?_, ?_⟩
  · intro n s₁ k v htake hget
    cases n with
    | zero =>
      simp only [List.take_zero, tcSteps, Option.some.injEq] at htake
      subst htake
      rcases hentry with rfl | rfl <;> simp [bookmarkMapOf, dictGet] at hget
    | succ n' =>
      rw [List.take_succ_cons, tcSteps] at htake
      simp only [hstep0] at htake
      have htakerest : ∀ q ∈ rest.take n', (strptime q.2.created_at).isSome = true :=
        fun q hq => hrest q (List.take_subset n' rest hq)
      obtain ⟨mₙ, hstepsₙ, hmₙ, _, _, _⟩ :=
        tcSteps_mid cfg
          (CommentsState.mk (Option.some (Option.some gv))
            (Option.some [(PyKey.str (pyStr t₀), gv)]))
          hThr (rest.take n')
          (CommentsState.mk (Option.some (Option.some gv))
            (Option.some [(PyKey.str (pyStr t₀), gv), (PyKey.int t₀, c₀.created_at)]))
          [(PyKey.str (pyStr t₀), gv), (PyKey.int t₀, c₀.created_at)]
          rfl hm₁ htakerest
      rw [hstepsₙ] at htake
      obtain rfl := Option.some.inj htake
      have hdroprest : ∀ q ∈ rest.drop n', (strptime q.2.created_at).isSome = true :=
        fun q hq => hrest q (List.drop_subset n' rest hq)
      obtain ⟨m'', hsteps'', _, hmono'', _, _⟩ :=
        tcSteps_mid cfg
          (CommentsState.mk (Option.some (Option.some gv))
            (Option.some [(PyKey.str (pyStr t₀), gv)]))
          hThr (rest.drop n')
          (CommentsState.mk (Option.some (Option.some gv)) (Option.some mₙ))
          mₙ rfl hmₙ hdroprest
      have hcomp : tcSteps cfg
          (SyncSt.mk (CommentsState.mk (Option.some (Option.some gv))
            (Option.some [(PyKey.str (pyStr t₀), gv),
              (PyKey.int t₀, c₀.created_at)]))
            (Option.some (CommentsState.mk (Option.some (Option.some gv))
              (Option.some [(PyKey.str (pyStr t₀), gv)])))) rest =
          Option.some (SyncSt.mk
            (CommentsState.mk (Option.some (Option.some gv)) (Option.some m''))
            (Option.some (CommentsState.mk (Option.some (Option.some gv))
              (Option.some [(PyKey.str (pyStr t₀), gv)])))) := by
        conv_lhs => rw [← List.take_append_drop n' rest]
        rw [tcSteps_append, hstepsₙ]
        exact hsteps''
      rw [hsteps] at hcomp
      obtain hm'eq := Option.some.inj hcomp
      have hmm : m' = m'' := by
        have h1 := congrArg (fun s => s.state.tcEntry) hm'eq
        simpa using h1
      subst hmm
      have hget' : dictGet mₙ k = Option.some v := hget
      exact hmono'' k v hget'
  · intro tid
    by_cases htid : t₀ = tid
    · subst htid
      have hobs : observed ((t₀, c₀) :: rest) t₀ = ca₀ :: observed rest t₀ := by
        simp [observed, List.filterMap_cons, hca₀]
      have hm₁get : dictGet
          [(PyKey.str (pyStr t₀), gv), (PyKey.int t₀, c₀.created_at)]
          (PyKey.int t₀) = Option.some c₀.created_at := by
        simp [dictGet]
      constructor
      · intro hemp
        rw [hobs] at hemp
        cases hemp
      · intro _
        obtain ⟨v', hv', hpar⟩ := (hint t₀).2 c₀.created_at ca₀ hm₁get hca₀
        refine ⟨v', hv', ?_⟩
        rw [hpar, hobs, maxNat_cons]
    · have hobs : observed ((t₀, c₀) :: rest) tid = observed rest tid := by
        simp [observed, List.filterMap_cons, htid]
      have hm₁get : dictGet
          [(PyKey.str (pyStr t₀), gv), (PyKey.int t₀, c₀.created_at)]
          (PyKey.int tid) = Option.none := by
        simp [dictGet, htid]
      rw [hobs]
      exact (hint tid).1 hm₁get
  · have hm₁get : dictGet
        [(PyKey.str (pyStr t₀), gv), (PyKey.int t₀, c₀.created_at)]
        (PyKey.str (pyStr t₀)) = Option.some gv := by
      simp [dictGet]
    rw [bookmarkMapOf]
    exact (hstr (pyStr t₀)).trans hm₁get

/-- C8 witness: two comments for ticket 5 at `"3"` then `"20"`, tickets
bookmark `"10"`: the run succeeds, the integer entry for 5 tracks the
maximum observed (20), and the seeded string entry keeps `"10"`. -/
theorem TicketComments.bookmark_map_invariants_witness :
    ∃ s', tcSteps (Config.mk (Val.str "0"))
        (SyncSt.mk (CommentsState.mk (Option.some (Option.some (Val.str "10")))
          Option.none) Option.none)
        ((5, Comment.mk (Val.str "3")) :: [(5, Comment.mk (Val.str "20"))]) =
        Option.some s' ∧
      (∀ n s₁ k v,
        tcSteps (Config.mk (Val.str "0"))
          (SyncSt.mk (CommentsState.mk (Option.some (Option.some (Val.str "10")))
            Option.none) Option.none)
          (((5, Comment.mk (Val.str "3")) :: [(5, Comment.mk (Val.str "20"))]).take n) =
          Option.some s₁ →
        dictGet (bookmarkMapOf s₁) k = Option.some v →
        ∃ v', dictGet (bookmarkMapOf s') k = Option.some v' ∧ bmLE v v') ∧
      (∀ tid,
        (observed ((5, Comment.mk (Val.str "3")) :: [(5, Comment.mk (Val.str "20"))]) tid = [] →
          dictGet (bookmarkMapOf s') (PyKey.int tid) = Option.none) ∧
        (observed ((5, Comment.mk (Val.str "3")) :: [(5, Comment.mk (Val.str "20"))]) tid ≠ [] →
          ∃ v, dictGet (bookmarkMapOf s') (PyKey.int tid) = Option.some v ∧
            strptime v = Option.some (maxNat
              (observed ((5, Comment.mk (Val.str "3")) ::
                [(5, Comment.mk (Val.str "20"))]) tid)))) ∧
      dictGet (bookmarkMapOf s') (PyKey.str (pyStr 5)) = Option.some (Val.str "10") :=
  TicketComments.bookmark_map_invariants (Config.mk (Val.str "0")) (Val.str "10") 10 5
    (Comment.mk (Val.str "3")) Option.none [(5, Comment.mk (Val.str "20"))]
    (Or.inl rfl) (by decide) (by decide)

/-! Dependency validation (`__init__.py` lines 69-93) and the fail-fast
prefix of `do_sync` (lines 100-104). -/

/-- The declared parent-to-children table `SUB_STREAMS`. -/
def SUB_STREAMS : List (String × List String) :=
  [("tickets", ["ticket_audits", "ticket_metrics", "ticket_comments"])]

/-- The formatted violation message `msg_tmpl.format(sub, parent)`. -/
def depMessage (sub parent : String) : String :=
  "Unable to extract " ++ sub ++ " data. To receive " ++ sub ++
    " data, you also need to select " ++ parent ++ "."

/-- The `errs` list accumulated by `validate_dependencies`: one message
per child selected without its parent, in table order. -/
def dependencyErrs (selected : List String) : List String :=
  (SUB_STREAMS.map (fun p =>
    p.2.filterMap (fun sub =>
      if sub ∈ selected ∧ p.1 ∉ selected then Option.some (depMessage sub p.1)
      else Option.none))).flatten

/-- Model of `validate_dependencies`: raises one `DependencyException`
joining all collected messages when any violation exists. -/
def validate_dependencies (selected : List String) : Except String Unit :=
  let errs := dependencyErrs selected
  if errs.isEmpty then Except.ok () else Except.error (String.intercalate " " errs)

/-- Model of `get_sub_stream_names`. -/
def get_sub_stream_names : List String := (SUB_STREAMS.map (fun p => p.2)).flatten

/-- Model of the control flow of `do_sync`: validation runs first, before
any stream is driven (before any network activity); on success the
catalog order is walked, skipping unselected streams and child streams
(which are synced only through their parent). -/
def do_sync (catalogStreams selected : List String) : Except String (List String) :=
  match validate_dependencies selected with
  | Except.error e => Except.error e
  | Except.ok _ =>
    Except.ok (catalogStreams.filter (fun s =>
      decide (s ∈ selected) && !decide (s ∈ get_sub_stream_names)))

theorem dependencyErrs_eq_nil_iff (sel : List String) :
    dependencyErrs sel = [] ↔
      ∀ parent subs sub, (parent, subs) ∈ SUB_STREAMS → sub ∈ subs →
        sub ∈ sel → parent ∈ sel := by
  by_cases hT : "tickets" ∈ sel <;>
    by_cases hA : "ticket_audits" ∈ sel <;>
    by_cases hM : "ticket_metrics" ∈ sel <;>
    by_cases hC : "ticket_comments" ∈ sel <;>
    simp [dependencyErrs, SUB_STREAMS, depMessage, hT, hA, hM, hC] <;>
    (intro parent subs sub hp hs hmem hsel
     subst hp
     first
       | exact hT
       | (subst hs
          simp only [List.mem_cons, List.not_mem_nil, or_false] at hmem
          rcases hmem with rfl | rfl | rfl <;> simp_all))

/-- C6 (confirmed).  Every child-without-parent violation is collected —
one descriptive message per violated pair — into one aggregated error:
validation passes iff no selected child lacks its parent; on failure the
single error joins all collected messages, and `do_sync` propagates it
before driving any stream; selecting exactly the two children
`ticket_audits` and `ticket_comments` without `tickets` yields exactly the
two corresponding messages in one error. -/
theorem validate_dependencies_spec :
    (∀ selected, validate_dependencies selected = Except.ok () ↔
      ∀ parent subs sub, (parent, subs) ∈ SUB_STREAMS → sub ∈ subs →
        sub ∈ selected → parent ∈ selected) ∧
    (∀ selected, dependencyErrs selected ≠ [] →
      validate_dependencies selected =
        Except.error (String.intercalate " " (dependencyErrs selected))) ∧
    (∀ selected catalogStreams e, validate_dependencies selected = Except.error e →
      do_sync catalogStreams selected = Except.error e) ∧
    dependencyErrs ["ticket_audits", "ticket_comments"] =
      [depMessage "ticket_audits" "tickets", depMessage "ticket_comments" "tickets"] ∧
    validate_dependencies ["ticket_audits", "ticket_comments"] =
      Except.error (depMessage "ticket_audits" "tickets" ++ " " ++
        depMessage "ticket_comments" "tickets") := by
  refine ⟨?_, ?_, ?_, ?_, ?_⟩
  · intro selected
    rw [← dependencyErrs_eq_nil_iff]
    rw [validate_dependencies]
    by_cases h : dependencyErrs selected = []
    · simp [h]
    · have : (dependencyErrs selected).isEmpty = false := by
        simpa [List.isEmpty_iff] using h
      simp [this, h]
  · intro selected hne
    rw [validate_dependencies]
    have : (dependencyErrs selected).isEmpty = false := by
      simpa [List.isEmpty_iff] using hne
    simp [this]
  · intro selected catalogStreams e herr
    rw [do_sync, herr]
  · rfl
  · rfl

/-- C6 witness: selecting `tickets` with one child passes validation, and
`do_sync` then drives only the top-level `tickets` stream. -/
theorem validate_dependencies_spec_witness :
    validate_dependencies ["tickets", "ticket_audits"] = Except.ok () ∧
    do_sync ["tickets", "groups", "ticket_audits"] ["tickets", "ticket_audits"] =
      Except.ok ["tickets"] :=
  ⟨(validate_dependencies_spec.1 ["tickets", "ticket_audits"]).mpr
    (by
      intro parent subs sub hp hs hmem
      simp only [SUB_STREAMS, List.mem_singleton, Prod.mk.injEq] at hp
      obtain ⟨rfl, rfl⟩ := hp
      decide),
   rfl⟩

/-! The `Tickets` parent stream fan-out (streams.py lines 269-337).  The
three child syncs are invoked per ticket behind
`try ... except http.ZendeskNotFound`; each child call is modelled as an
oracle from the ticket id to an outcome: a list of records, the
distinguished "not found" signal, or any other error. -/

/-- The three child streams fanned out from a ticket. -/
inductive ChildTag where
  | audits : ChildTag
  | metrics : ChildTag
  | comments : ChildTag
deriving DecidableEq

/-- Outcome of one per-ticket child sync: its yielded records (abstracted
to identifiers), the `ZendeskNotFound` signal, or any other exception. -/
inductive FetchResult where
  | ok (records : List Nat) : FetchResult
  | notFound : FetchResult
  | err : FetchResult
deriving DecidableEq

/-- A ticket from the incremental export: its id and the epoch
`generated_timestamp`. -/
structure TicketRec where
  id : Nat
  generated_timestamp : Nat
deriving DecidableEq

/-- One event of the interleaved fan-out output: a yielded ticket record,
a yielded child record, or the logged warning that downgrades a
"not found" signal. -/
inductive SyncItem where
  | ticket (t : TicketRec) : SyncItem
  | child (tag : ChildTag) (tid : Nat) (r : Nat) : SyncItem
  | warnNotFound (tag : ChildTag) (tid : Nat) : SyncItem
deriving DecidableEq

/-- One guarded child invocation: skipped when the child is not selected;
`ZendeskNotFound` is caught and logged as a warning, skipping that
ticket's child sync; any other error propagates. -/
def syncChild (sel : ChildTag → Bool) (fetch : ChildTag → Nat → FetchResult)
    (tag : ChildTag) (tid : Nat) : Except Unit (List SyncItem) :=
  if sel tag then
    match fetch tag tid with
    | FetchResult.ok rs => Except.ok (rs.map (fun r => SyncItem.child tag tid r))
    | FetchResult.notFound => Except.ok [SyncItem.warnNotFound tag tid]
    | FetchResult.err => Except.error ()
  else Except.ok []

/-- Model of `Tickets.sync`: per ticket, advance the tickets bookmark with
the rendered `generated_timestamp`, yield the ticket record, then run the
three guarded child invocations; the final state is the live bookmark
slot.  (The `pop` of the duplicate `fields` key is a record-content
transformation, not modelled on the atomic ticket records here.) -/
def Tickets.sync (sel : ChildTag → Bool) (fetch : ChildTag → Nat → FetchResult) :
    Val → List TicketRec → Except Unit (List SyncItem × Val)
  | state, [] => Except.ok ([], state)
  | state, t :: rest =>
    let r := update_bookmark state (Val.str (natRepr t.generated_timestamp))
    if r.raised then Except.error () else
    match syncChild sel fetch ChildTag.audits t.id with
    | Except.error e => Except.error e
    | Except.ok as =>
      match syncChild sel fetch ChildTag.metrics t.id with
      | Except.error e => Except.error e
      | Except.ok ms =>
        match syncChild sel fetch ChildTag.comments t.id with
        | Except.error e => Except.error e
        | Except.ok cs =>
          match Tickets.sync sel fetch r.state rest with
          | Except.error e => Except.error e
          | Except.ok (items, st) =>
            Except.ok (SyncItem.ticket t :: (as ++ ms ++ cs ++ items), st)

/-- The items a non-fatal child invocation contributes. -/
def childBlock (sel : ChildTag → Bool) (fetch : ChildTag → Nat → FetchResult)
    (tag : ChildTag) (tid : Nat) : List SyncItem :=
  if sel tag then
    match fetch tag tid with
    | FetchResult.ok rs => rs.map (fun r => SyncItem.child tag tid r)
    | FetchResult.notFound => [SyncItem.warnNotFound tag tid]
    | FetchResult.err => []
  else []

/-- The items one ticket contributes: the ticket record first, then its
three child blocks. -/
def ticketBlock (sel : ChildTag → Bool) (fetch : ChildTag → Nat → FetchResult)
    (t : TicketRec) : List SyncItem :=
  SyncItem.ticket t ::
    (childBlock sel fetch ChildTag.audits t.id ++
     childBlock sel fetch ChildTag.metrics t.id ++
     childBlock sel fetch ChildTag.comments t.id)

theorem syncChild_ok {sel : ChildTag → Bool} {fetch : ChildTag → Nat → FetchResult}
    {tag : ChildTag} {tid : Nat} (h : sel tag = true → fetch tag tid ≠ FetchResult.err) :
    syncChild sel fetch tag tid = Except.ok (childBlock sel fetch tag tid) := by
  rw [syncChild, childBlock]
  by_cases hs : sel tag = true
  · rw [if_pos hs, if_pos hs]
    cases hf : fetch tag tid with
    | ok rs => rfl
    | notFound => rfl
    | err => exact absurd hf (h hs)
  · rw [if_neg hs, if_neg hs]

theorem syncChild_ok_inv {sel : ChildTag → Bool} {fetch : ChildTag → Nat → FetchResult}
    {tag : ChildTag} {tid : Nat} {items : List SyncItem}
    (h : syncChild sel fetch tag tid = Except.ok items) :
    sel tag = true → fetch tag tid ≠ FetchResult.err := by
  intro hs hf
  rw [syncChild, if_pos hs, hf] at h
  cases h

theorem child_mem_childBlock {sel : ChildTag → Bool}
    {fetch : ChildTag → Nat → FetchResult} {tag tag' : ChildTag} {tid tid' r : Nat}
    (h : SyncItem.child tag tid r ∈ childBlock sel fetch tag' tid') :
    tag = tag' ∧ tid = tid' ∧ ∃ rs, fetch tag' tid' = FetchResult.ok rs := by
  rw [childBlock] at h
  split at h
  · split at h
    · rename_i rs hf
      rcases List.mem_map.mp h with ⟨r', _, heq⟩
      injection heq with h1 h2 h3
      exact ⟨h1.symm, h2.symm, rs, hf⟩
    · rcases List.mem_singleton.mp h with heq
      cases heq
    · cases h
  · cases h

/-- The per-ticket success characterization of `Tickets.sync`: with a
parseable bookmark and no fatal child error, the run succeeds and its
output is exactly the concatenation of the per-ticket blocks — each
ticket record emitted before its child items, independent of the bookmark
state. -/
theorem Tickets.sync_blocks (sel : ChildTag → Bool)
    (fetch : ChildTag → Nat → FetchResult) :
    ∀ (tickets : List TicketRec) (state : Val) (b : Nat),
      strptime state = Option.some b →
      (∀ t ∈ tickets, ∀ tag, sel tag = true → fetch tag t.id ≠ FetchResult.err) →
      ∃ st', Tickets.sync sel fetch state tickets =
        Except.ok ((tickets.map (ticketBlock sel fetch)).flatten, st') := by
  intro tickets
  induction tickets with
  | nil =>
    intro state b hs _
    exact ⟨state, rfl⟩
  | cons t rest ih =>
    intro state b hs hok
    have hts := strptime_natRepr t.generated_timestamp
    have hr : update_bookmark state (Val.str (natRepr t.generated_timestamp)) =
        { state := (update_bookmark state (Val.str (natRepr t.generated_timestamp))).state,
          raised := false } := by
      rw [update_bookmark_parse hs hts]
    have hst := update_bookmark_state_parse hs hts
    obtain ⟨st', hrest⟩ :=
      ih (update_bookmark state (Val.str (natRepr t.generated_timestamp))).state
        (max b t.generated_timestamp) hst
        (fun t' ht' => hok t' (List.mem_cons_of_mem t ht'))
    have hA := syncChild_ok (hok t (List.mem_cons_self t rest) ChildTag.audits)
    have hM := syncChild_ok (hok t (List.mem_cons_self t rest) ChildTag.metrics)
    have hC := syncChild_ok (hok t (List.mem_cons_self t rest) ChildTag.comments)
    refine ⟨st', ?_⟩
    rw [Tickets.sync]
    have hraised : (update_bookmark state (Val.str (natRepr t.generated_timestamp))).raised
        = false := by rw [update_bookmark_parse hs hts]
    simp only [hraised, Bool.false_eq_true, if_false, hA, hM, hC, hrest]
    rw [List.map_cons, List.flatten_cons, ticketBlock]
    simp [List.append_assoc]

/-- C7 (confirmed).  In the ticket fan-out: when no selected child signals
a fatal error, the sync succeeds and emits, for every ticket, the ticket
record before any of its child items (so a "not found" on a child never
suppresses the ticket itself or later tickets); a "not found" from a
selected child is downgraded to a logged warning and that ticket's child
records are absent; and a successful sync implies no selected child of any
ticket signalled an error other than "not found" — any such error
propagates out of `sync`. -/
theorem Tickets.sync_fanout (sel : ChildTag → Bool)
    (fetch : ChildTag → Nat → FetchResult) (tickets : List TicketRec)
    (state : Val) (b : Nat) (hs : strptime state = Option.some b) :
    ((∀ t ∈ tickets, ∀ tag, sel tag = true → fetch tag t.id ≠ FetchResult.err) →
      ∃ st', Tickets.sync sel fetch state tickets =
        Except.ok ((tickets.map (ticketBlock sel fetch)).flatten, st')) ∧
    (∀ items st', Tickets.sync sel fetch state tickets = Except.ok (items, st') →
      (∀ t ∈ tickets, SyncItem.ticket t ∈ items) ∧
      (∀ t ∈ tickets, ∀ tag, sel tag = true → fetch tag t.id ≠ FetchResult.err) ∧
      (∀ t ∈ tickets, ∀ tag, sel tag = true → fetch tag t.id = FetchResult.notFound →
        SyncItem.warnNotFound tag t.id ∈ items ∧
        ∀ r, SyncItem.child tag t.id r ∉ items)) := by
  constructor
  · exact fun hok => Tickets.sync_blocks sel fetch tickets state b hs hok
  · intro items st' h
    have hnoerr : ∀ t ∈ tickets, ∀ tag, sel tag = true →
        fetch tag t.id ≠ FetchResult.err := by
      clear hs
      induction tickets generalizing state items st' with
      | nil => intro t ht; cases ht
      | cons t₁ rest ih =>
        rw [Tickets.sync] at h
        split at h
        · cases h
        · split at h
          · cases h
          · rename_i as hA
            split at h
            · cases h
            · rename_i ms hM
              split at h
              · cases h
              · rename_i cs hC
                split at h
                · cases h
                · rename_i p hrest
                  intro t ht tag hsel
                  rcases List.mem_cons.mp ht with rfl | ht'
                  · cases tag with
                    | audits => exact syncChild_ok_inv hA hsel
                    | metrics => exact syncChild_ok_inv hM hsel
                    | comments => exact syncChild_ok_inv hC hsel
                  · exact ih _ _ _ hrest t ht' tag hsel
    refine ⟨?_, hnoerr, ?_⟩
    · intro t ht
      obtain ⟨st'', hblocks⟩ := Tickets.sync_blocks sel fetch tickets state b hs hnoerr
      rw [h] at hblocks
      have heq1 : items = (tickets.map (ticketBlock sel fetch)).flatten :=
        congrArg Prod.fst (Except.ok.inj hblocks)
      rw [heq1]
      exact List.mem_flatten.mpr ⟨ticketBlock sel fetch t,
        List.mem_map.mpr ⟨t, ht, rfl⟩, List.mem_cons_self _ _⟩
    · intro t ht tag hsel hnf
      obtain ⟨st'', hblocks⟩ := Tickets.sync_blocks sel fetch tickets state b hs hnoerr
      rw [h] at hblocks
      have heq1 : items = (tickets.map (ticketBlock sel fetch)).flatten :=
        congrArg Prod.fst (Except.ok.inj hblocks)
      constructor
      · rw [heq1]
        refine List.mem_flatten.mpr ⟨ticketBlock sel fetch t,
          List.mem_map.mpr ⟨t, ht, rfl⟩, ?_⟩
        rw [ticketBlock]
        refine List.mem_cons_of_mem _ ?_
        have hwarn : SyncItem.warnNotFound tag t.id ∈ childBlock sel fetch tag t.id := by
          rw [childBlock, if_pos hsel, hnf]
          exact List.mem_singleton.mpr rfl
        cases tag
        · exact List.mem_append_left _ (List.mem_append_left _ hwarn)
        · exact List.mem_append_left _ (List.mem_append_right _ hwarn)
        · exact List.mem_append_right _ hwarn
      · intro r hr
        rw [heq1] at hr
        obtain ⟨blk, hblk, hrin⟩ := List.mem_flatten.mp hr
        obtain ⟨t', ht', rfl⟩ := List.mem_map.mp hblk
        rw [ticketBlock] at hrin
        rcases List.mem_cons.mp hrin with heq | hrin'
        · cases heq
        · rcases List.mem_append.mp hrin' with hrin'' | hrC
          · rcases List.mem_append.mp hrin'' with hrA | hrM
            · obtain ⟨rfl, htid, rs, hok'⟩ := child_mem_childBlock hrA
              rw [htid] at hnf
              rw [hok'] at hnf
              cases hnf
            · obtain ⟨rfl, htid, rs, hok'⟩ := child_mem_childBlock hrM
              rw [htid] at hnf
              rw [hok'] at hnf
              cases hnf
          · obtain ⟨rfl, htid, rs, hok'⟩ := child_mem_childBlock hrC
            rw [htid] at hnf
            rw [hok'] at hnf
            cases hnf

/-- C7 witness: two tickets, audits of ticket 1 "not found": the sync
succeeds and emits the block-structured output — ticket 1, its warning,
its other children, then ticket 2 and its children. -/
theorem Tickets.sync_fanout_witness :
    strptime (Val.str "0") = Option.some 0 ∧
    (∃ st', Tickets.sync (fun _ => true)
        (fun tag tid =>
          if tag = ChildTag.audits ∧ tid = 1 then FetchResult.notFound
          else FetchResult.ok [])
        (Val.str "0") [TicketRec.mk 1 4, TicketRec.mk 2 6] =
      Except.ok
        (([TicketRec.mk 1 4, TicketRec.mk 2 6].map
          (ticketBlock (fun _ => true)
            (fun tag tid =>
              if tag = ChildTag.audits ∧ tid = 1 then FetchResult.notFound
              else FetchResult.ok []))).flatten, st')) :=
  ⟨by decide,
   (Tickets.sync_fanout (fun _ => true)
      (fun tag tid =>
        if tag = ChildTag.audits ∧ tid = 1 then FetchResult.notFound
        else FetchResult.ok [])
      [TicketRec.mk 1 4, TicketRec.mk 2 6] (Val.str "0") 0 (by decide)).1
    (by
      intro t ht tag hsel hf
      by_cases hP : tag = ChildTag.audits ∧ t.id = 1
      · rw [if_pos hP] at hf
        cases hf
      · rw [if_neg hP] at hf
        cases hf)⟩

/-! The `GroupMemberships` stream (streams.py lines 599-618): records with
a truthy `updated_at` go through the `>=` filter and bookmark advance;
records with a present-but-falsy `updated_at` are yielded unconditionally
when their id is truthy and skipped otherwise; bracket access raises
`KeyError` when a field is missing. -/

/-- A group-membership record; `Option.none` models an absent key (bracket
access raises), `Option.some` a present value that may still be falsy. -/
structure Membership where
  updated_at : Option Val
  id : Option Val
deriving DecidableEq

/-- The per-record loop of `GroupMemberships.sync`; `b` is the bookmark
parsed at stream start. -/
def GroupMemberships.syncGo (b : Nat) : Val → List Membership → Option (List Membership × Val)
  | state, [] => Option.some ([], state)
  | state, mrec :: ms =>
    match mrec.updated_at with
    | Option.none => Option.none
    | Option.some u =>
      if truthy u then
        match strptime u with
        | Option.none => Option.none
        | Option.some uts =>
          if b ≤ uts then
            let r := update_bookmark state u
            if r.raised then Option.none
            else
              match GroupMemberships.syncGo b r.state ms with
              | Option.none => Option.none
              | Option.some (ys, st) => Option.some (mrec :: ys, st)
          else GroupMemberships.syncGo b state ms
      else
        match mrec.id with
        | Option.none => Option.none
        | Option.some i =>
          if truthy i then
            match GroupMemberships.syncGo b state ms with
            | Option.none => Option.none
            | Option.some (ys, st) => Option.some (mrec :: ys, st)
          else GroupMemberships.syncGo b state ms

/-- Model of `GroupMemberships.sync`. -/
def GroupMemberships.sync (state : Val) (ms : List Membership) :
    Option (List Membership × Val) :=
  match strptime state with
  | Option.none => Option.none
  | Option.some b => GroupMemberships.syncGo b state ms

/-- C10 counterexample.  A record with the `updated_at` key absent and a
truthy id: the claim says it is yielded unconditionally, but
`membership['updated_at']` raises `KeyError`, aborting the sync. -/
theorem group_membership_absent_key_raises :
    GroupMemberships.sync (Val.str "0")
      [Membership.mk Option.none (Option.some (Val.int 1))] = Option.none := by
  decide

/-- C10 (amended).  In `GroupMemberships.sync`: a record whose
`updated_at` is present but falsy is yielded unconditionally when its id
is truthy — bypassing both the `>=` inclusion test and bookmark
advancement, so it is re-emitted on every run — and skipped entirely when
its id is also present and falsy; only records with a truthy `updated_at`
are subject to the bookmark filter and advance; a record with the
`updated_at` key absent, or with falsy `updated_at` and the id key absent,
raises `KeyError` (aborting the sync) instead of being handled. -/
theorem GroupMemberships.sync_cases (b : Nat) (state : Val) (mrec : Membership)
    (ms : List Membership) :
    (∀ u i, mrec.updated_at = Option.some u → truthy u = false →
      mrec.id = Option.some i → truthy i = true →
      ∀ ys st, GroupMemberships.syncGo b state ms = Option.some (ys, st) →
        GroupMemberships.syncGo b state (mrec :: ms) = Option.some (mrec :: ys, st)) ∧
    (∀ u i, mrec.updated_at = Option.some u → truthy u = false →
      mrec.id = Option.some i → truthy i = false →
      GroupMemberships.syncGo b state (mrec :: ms) =
        GroupMemberships.syncGo b state ms) ∧
    (∀ u uts, mrec.updated_at = Option.some u → strptime u = Option.some uts →
      uts < b →
      GroupMemberships.syncGo b state (mrec :: ms) =
        GroupMemberships.syncGo b state ms) ∧
    (∀ u uts s, mrec.updated_at = Option.some u → strptime u = Option.some uts →
      b ≤ uts → strptime state = Option.some s →
      ∀ ys st, GroupMemberships.syncGo b (update_bookmark state u).state ms =
          Option.some (ys, st) →
        GroupMemberships.syncGo b state (mrec :: ms) = Option.some (mrec :: ys, st)) ∧
    (mrec.updated_at = Option.none →
      GroupMemberships.syncGo b state (mrec :: ms) = Option.none) ∧
    (∀ u, mrec.updated_at = Option.some u → truthy u = false →
      mrec.id = Option.none →
      GroupMemberships.syncGo b state (mrec :: ms) = Option.none) := by
  refine ⟨?_, ?_, ?_, ?_, ?_, ?_⟩
  · intro u i hu htu hi hti ys st hrest
    rw [GroupMemberships.syncGo]
    simp only [hu, htu, Bool.false_eq_true, if_false, hi, hti, if_true, hrest]
  · intro u i hu htu hi hti
    rw [GroupMemberships.syncGo]
    simp only [hu, htu, Bool.false_eq_true, if_false, hi, hti]
  · intro u uts hu hparse hlt
    have htu : truthy u = true :=
      truthy_of_strptime_isSome (by rw [hparse]; rfl)
    rw [GroupMemberships.syncGo]
    simp only [hu, htu, if_true, hparse]
    rw [if_neg (by omega)]
  · intro u uts s hu hparse hle hs ys st hrest
    have htu : truthy u = true :=
      truthy_of_strptime_isSome (by rw [hparse]; rfl)
    have hraised : (update_bookmark state u).raised = false := by
      rw [update_bookmark_parse hs hparse]
    rw [GroupMemberships.syncGo]
    simp only [hu, htu, if_true, hparse, hle, hraised, Bool.false_eq_true, if_false,
      hrest]
  · intro hu
    rw [GroupMemberships.syncGo]
    simp only [hu]
  · intro u hu htu hi
    rw [GroupMemberships.syncGo]
    simp only [hu, htu, Bool.false_eq_true, if_false, hi]

/-- C10 witness: a record with `updated_at = ""` (present, falsy) and id 1
is yielded unconditionally with the bookmark slot untouched. -/
theorem GroupMemberships.sync_cases_witness :
    GroupMemberships.syncGo 0 (Val.str "0")
      [Membership.mk (Option.some (Val.str "")) (Option.some (Val.int 1))] =
      Option.some ([Membership.mk (Option.some (Val.str "")) (Option.some (Val.int 1))],
        Val.str "0") :=
  (GroupMemberships.sync_cases 0 (Val.str "0")
      (Membership.mk (Option.some (Val.str "")) (Option.some (Val.int 1))) []).1
    (Val.str "") (Val.int 1) rfl (by decide) rfl (by decide) [] (Val.str "0") rfl

end TapZendesk
